import Mathlib

/-!
Verification of the declarative hierarchical task orchestration engine
(the "Tasking" solution: task tree, workflow policies, storage shadowing,
barriers, timeouts, progress accounting).

The engine implementation itself is not present in this source snapshot
(only its test suite, `tst_tasking.cpp`, and its callers are), so the
definitions below are modelled from the specification, with the observable
behavior cross-checked against the expectations recorded in the test suite.
-/

namespace Tasking

/-- Modelled from the spec: handler-return outcome `DoneResult ∈ {Success, Error}`. -/
inductive DoneResult where
  | success
  | error
deriving DecidableEq, Repr

/-- Modelled from the spec: terminal outcome enum `DoneWith ∈ {Success, Error, Cancel}`. -/
inductive DoneWith where
  | success
  | error
  | cancel
deriving DecidableEq, Repr

/-- Modelled from the spec: setup-handler return
`SetupResult ∈ {Continue, StopWithSuccess, StopWithError}`. -/
inductive SetupResult where
  | continue'
  | stopWithSuccess
  | stopWithError
deriving DecidableEq, Repr

/-- Modelled from the spec: the seven workflow policies of §4.3. -/
inductive WorkflowPolicy where
  | stopOnError
  | continueOnError
  | stopOnSuccess
  | continueOnSuccess
  | stopOnSuccessOrError
  | finishAllAndSuccess
  | finishAllAndError
deriving DecidableEq, Repr

/-- Modelled from the spec: execution mode
`mode ∈ {Sequential, Parallel, ParallelLimit(k)}` with `Sequential == ParallelLimit(1)`. -/
inductive ExecMode where
  | sequential
  | parallel
  | parallelLimit (k : Nat)
deriving DecidableEq, Repr

/-- Modelled from the spec: the number of simultaneously running children a mode
allows (`Sequential` uses 1, `Parallel` uses ∞ (encoded as `none`),
`ParallelLimit(k)` uses `k`). -/
def ExecMode.limit : ExecMode → Option Nat
  | .sequential => some 1
  | .parallel => none
  | .parallelLimit k => some k

/-- Conversion of a handler result to the observed outcome of a normally
finishing node. -/
def DoneResult.toDoneWith : DoneResult → DoneWith
  | .success => .success
  | .error => .error

/-- Modelled from the spec: the state the outcome propagator accumulates while
children of a group complete (whether any child succeeded, whether any child
errored, and the first finished child's result). -/
structure GroupAcc where
  anySuccess : Bool
  anyError : Bool
  firstDone : Option DoneResult
deriving DecidableEq, Repr

/-- Accumulator state of a group none of whose children completed yet. -/
def GroupAcc.init : GroupAcc := ⟨false, false, none⟩

/-- Registers one child's effective result in the accumulator. -/
def GroupAcc.add (a : GroupAcc) (r : DoneResult) : GroupAcc :=
  { anySuccess := a.anySuccess || r == DoneResult.success
    anyError := a.anyError || r == DoneResult.error
    firstDone := some (a.firstDone.getD r) }

/-- Modelled from the spec: the stop column of the §4.3 table — whether a child
finishing with result `r` makes the group cancel its remaining children and
finalize. -/
def stopsOn (p : WorkflowPolicy) (r : DoneResult) : Bool :=
  match p with
  | .stopOnError => r == DoneResult.error
  | .stopOnSuccess => r == DoneResult.success
  | .stopOnSuccessOrError => true
  | _ => false

/-- Modelled from the spec: the final-outcome column of the §4.3 table applied
to the accumulated child results; on the empty accumulator this yields the
empty-group defaults of the tie-break paragraph. -/
def accFinal (p : WorkflowPolicy) (a : GroupAcc) : DoneResult :=
  match p with
  | .stopOnError | .continueOnError =>
      if a.anyError then DoneResult.error else DoneResult.success
  | .stopOnSuccess | .continueOnSuccess =>
      if a.anySuccess then DoneResult.success else DoneResult.error
  | .stopOnSuccessOrError => a.firstDone.getD DoneResult.error
  | .finishAllAndSuccess => DoneResult.success
  | .finishAllAndError => DoneResult.error

/-- Modelled from the spec: the outcome propagator run over the children's
effective results in completion order — each completion is folded into the
accumulator and, when the policy's stop column triggers, the group finalizes
immediately, skipping the remaining children. -/
def runChildren (p : WorkflowPolicy) : GroupAcc → List DoneResult → DoneResult
  | acc, [] => accFinal p acc
  | acc, r :: rs =>
      let acc' := acc.add r
      if stopsOn p r then accFinal p acc' else runChildren p acc' rs

/-- Stated from the spec's words: the declarative final-outcome table of §4.3
as a function of all children's outcomes — `StopOnError`/`ContinueOnError`
yield Error iff any child errored, else Success; `StopOnSuccess`/
`ContinueOnSuccess` yield Success iff any child succeeded, else Error;
`StopOnSuccessOrError` yields the outcome of the first child to finish;
`FinishAllAndSuccess` always Success; `FinishAllAndError` always Error;
with the empty-group defaults of the tie-break paragraph. -/
def policyTable (p : WorkflowPolicy) (rs : List DoneResult) : DoneResult :=
  match p with
  | .stopOnError | .continueOnError =>
      if rs.contains DoneResult.error then DoneResult.error else DoneResult.success
  | .stopOnSuccess | .continueOnSuccess =>
      if rs.contains DoneResult.success then DoneResult.success else DoneResult.error
  | .stopOnSuccessOrError => rs.headD DoneResult.error
  | .finishAllAndSuccess => DoneResult.success
  | .finishAllAndError => DoneResult.error

/-- Modelled from the spec: §4.2 step 1 — the group setup handler's result
routes the group: `StopWithSuccess`/`StopWithError` send it straight to the
corresponding terminal state, overriding the children (and hence the
empty-group default); `Continue` lets the propagator decide from the
children's results. -/
def groupOutcome (p : WorkflowPolicy) (setup : SetupResult)
    (rs : List DoneResult) : DoneResult :=
  match setup with
  | .stopWithSuccess => DoneResult.success
  | .stopWithError => DoneResult.error
  | .continue' => runChildren p GroupAcc.init rs

/-- Modelled from the spec: the observable events of a run — handler
invocations with the outcome they observe (the test suite's log entries),
storage instance lifecycle, controller storage callbacks, barrier advances
and timeout-handler firings. -/
inductive Event where
  | taskSetup (id : Nat)
  | taskDone (id : Nat) (observed : DoneWith)
  | syncRun (id : Nat)
  | groupSetup (id : Nat)
  | groupDone (id : Nat) (observed : DoneWith)
  | timeoutFired (id : Nat)
  | barrierAdvanced (id : Nat)
  | storageCreate (key inst : Nat)
  | storageSetupCb (key inst : Nat)
  | activeRead (gid key inst : Nat)
  | storageDoneCb (key inst : Nat)
  | storageDestroy (key inst : Nat)
deriving DecidableEq, Repr

/-- Modelled from the spec: the static data of a group node — execution mode,
workflow policy, the value its setup handler returns, the optional done
handler (which may rewrite the outcome), log instrumentation, declared
storage keys, declared barriers and the keys for which the controller
registered storage callbacks (nonempty only on the root in our models). -/
structure GroupSpec where
  mode : ExecMode := .sequential
  policy : WorkflowPolicy := .stopOnError
  setup : SetupResult := .continue'
  onDone : Option (DoneWith → DoneResult) := none
  logSetup : Option Nat := none
  logDone : Option Nat := none
  readsKey : Option Nat := none
  storages : List Nat := []
  barrierDecls : List (Nat × Nat) := []
  cbKeys : List Nat := []

mutual
/-- Modelled from the spec: the immutable recipe AST — groups, asynchronous
task leaves (with a setup handler that may tweak the result, a duration and
the result the adapter will report), synchronous leaves, barrier waiters,
barrier advancers (the test suite's `createBarrierAdvance` task) and the
timeout task produced by the `withTimeout` modifier. -/
inductive Item where
  | task (id : Nat) (tsetup : SetupResult) (dur : Nat) (result : DoneResult)
      (onDone : Option (DoneWith → DoneResult))
  | sync (id : Nat) (result : DoneResult)
  | waitB (bid : Nat)
  | advanceB (id : Nat) (dur : Nat) (bid : Nat)
  | timeoutT (id : Nat) (dur : Nat) (hasHandler : Bool)
  | group (g : GroupSpec) (children : ItemList)

/-- List of recipe items (a separate mutual inductive so that all recursions
stay structural). -/
inductive ItemList where
  | nil
  | cons (i : Item) (l : ItemList)
end

/-- Conversion from ordinary lists of items. -/
def ItemList.ofList : List Item → ItemList
  | [] => .nil
  | i :: is => .cons i (ItemList.ofList is)

mutual
/-- Modelled from the spec: the number of asynchronous leaves of a recipe node
(tasks and barrier-waits; `Sync` does not count) — this is
`progress_maximum`. -/
def leafCountI : Item → Nat
  | .task _ _ _ _ _ => 1
  | .sync _ _ => 0
  | .waitB _ => 1
  | .advanceB _ _ _ => 1
  | .timeoutT _ _ _ => 1
  | .group _ ch => leafCountL ch

/-- Total asynchronous-leaf count of a list of recipe items. -/
def leafCountL : ItemList → Nat
  | .nil => 0
  | .cons i rest => leafCountI i + leafCountL rest
end

/-- Modelled from the spec: `task_count()` — the number of asynchronous leaves
counted at compile time (`== progress_maximum`). -/
def taskCount (item : Item) : Nat := leafCountI item

/-- Storage context: the (key, instance) pairs visible on the path from the
root to the current node, innermost first. -/
abbrev Sctx := List (Nat × Nat)

/-- Modelled from the spec: active-instance access from inside a handler
resolves to the innermost live instance of the key on the path from the root
to the handler's owning node. -/
def lookupActive (sctx : Sctx) (k : Nat) : Nat :=
  ((sctx.find? (fun p => p.1 == k)).map Prod.snd).getD 0

/-- Mutable global data of a run: barrier states `(id, required, current)`,
the next fresh storage-instance id, the monotone progress counter and the
event trace (most recent event first). -/
structure Env where
  barriers : List (Nat × Nat × Nat)
  nextInst : Nat
  progress : Nat
  rtrace : List Event

/-- The environment at the start of a run. -/
def Env.init : Env := ⟨[], 0, 0, []⟩

/-- Appends one event to the trace. -/
def Env.emit (env : Env) (e : Event) : Env := { env with rtrace := e :: env.rtrace }

/-- Advances the progress counter by `n` units. -/
def Env.addProgress (env : Env) (n : Nat) : Env := { env with progress := env.progress + n }

/-- Modelled from the spec: a barrier is created when the engine encounters its
declaration; `(required, current = 0)`. -/
def Env.declareBarriers (env : Env) (ds : List (Nat × Nat)) : Env :=
  { env with barriers := ds.map (fun d => (d.1, d.2, 0)) ++ env.barriers }

/-- Modelled from the spec: `advance()` — monotonically bumps the barrier's
current count. -/
def Env.bumpBarrier (env : Env) (bid : Nat) : Env :=
  { env with barriers :=
      env.barriers.map (fun b => if b.1 == bid then (b.1, b.2.1, b.2.2 + 1) else b) }

/-- Modelled from the spec: whether the barrier's current count has reached its
required advance count. -/
def Env.satisfied (env : Env) (bid : Nat) : Bool :=
  match env.barriers.find? (fun b => b.1 == bid) with
  | some b => b.2.1 ≤ b.2.2
  | none => false

mutual
/-- Runtime counterpart of a recipe node that has entered `Running`: leaves
carry the remaining duration, groups carry their handler context, the storage
instances they created, the propagator accumulator, their running children and
the children not yet started. -/
inductive RNode where
  | rtask (id : Nat) (rem : Nat) (result : DoneResult) (onDone : Option (DoneWith → DoneResult))
  | rwait (bid : Nat)
  | radvance (id : Nat) (rem : Nat) (bid : Nat)
  | rtimeout (id : Nat) (rem : Nat) (hasHandler : Bool)
  | rgroup (g : GroupSpec) (sctx : Sctx) (own : List (Nat × Nat)) (acc : GroupAcc)
      (running : RNodeList) (pending : ItemList)

/-- List of runtime nodes. -/
inductive RNodeList where
  | nil
  | cons (n : RNode) (l : RNodeList)
end

/-- Concatenation of runtime-node lists. -/
def RNodeList.append : RNodeList → RNodeList → RNodeList
  | .nil, l => l
  | .cons n rest, l => .cons n (rest.append l)

/-- Number of runtime nodes in a list (the group's in-flight children). -/
def RNodeList.length : RNodeList → Nat
  | .nil => 0
  | .cons _ rest => rest.length + 1

/-- Modelled from the spec: whether a group may start another child —
the count of in-flight children must stay below the mode's parallel limit. -/
def slotsFree (m : ExecMode) (cur : Nat) : Bool :=
  match m.limit with
  | none => true
  | some k => cur < k

mutual
/-- Asynchronous leaves of the runtime tree that were not yet counted into the
progress value: running leaves count one each, a group counts its running
children plus all leaves of its not-yet-started children. -/
def rCountN : RNode → Nat
  | .rtask _ _ _ _ => 1
  | .rwait _ => 1
  | .radvance _ _ _ => 1
  | .rtimeout _ _ _ => 1
  | .rgroup _ _ _ _ running pending => rCountL running + leafCountL pending

/-- Uncounted asynchronous leaves of a runtime-node list. -/
def rCountL : RNodeList → Nat
  | .nil => 0
  | .cons n rest => rCountN n + rCountL rest
end

/-- Result of starting or settling a node: either it is (still) running, or it
reached a terminal state and reports its effective result for the parent's
propagation. -/
inductive StartRes where
  | running (n : RNode)
  | done (eff : DoneResult)

/-- Modelled from the spec: instantiation of a group's declared storage slots
at entry — each key gets a fresh instance; for keys with a registered
controller setup callback the callback is invoked right after creation. -/
def createStorages (cb : List Nat) : List Nat → Env → List (Nat × Nat) × Env
  | [], env => ([], env)
  | k :: rest, env =>
      let i := env.nextInst
      let env := { env with nextInst := i + 1 }
      let env := env.emit (.storageCreate k i)
      let env := if cb.contains k then env.emit (.storageSetupCb k i) else env
      let (ps, env) := createStorages cb rest env
      ((k, i) :: ps, env)

/-- Modelled from the spec: destruction of a group's storage instances in
reverse creation order at exit; for keys with a registered controller done
callback the callback is invoked just before the slot is destroyed. -/
def destroyOwn (cb : List Nat) : List (Nat × Nat) → Env → Env
  | [], env => env
  | (k, i) :: rest, env =>
      let env := if cb.contains k then env.emit (.storageDoneCb k i) else env
      destroyOwn cb rest (env.emit (.storageDestroy k i))

/-- Environment effect of a group reaching its terminal state: the done
handler's log entry (observing the outcome), the instrumented read of the
active storage instance inside the handler, and the destruction of the
group's storage instances before the parent observes the outcome. -/
def finishGroupEnv (g : GroupSpec) (sctx : Sctx) (own : List (Nat × Nat))
    (observed : DoneWith) (env : Env) : Env :=
  let env := match g.logDone with
    | some gid => env.emit (.groupDone gid observed)
    | none => env
  let env := match g.readsKey with
    | some k => env.emit (.activeRead (g.logDone.getD 0) k (lookupActive sctx k))
    | none => env
  destroyOwn g.cbKeys own.reverse env

/-- Effective result of a group reaching its terminal state: the done
handler's return value when one is installed (the handler may rewrite the
outcome but can only produce `Success` or `Error`); with no handler the
observed outcome carries over, `Cancel` mapping to an effective `Error`. -/
def finishGroupEff (g : GroupSpec) (observed : DoneWith) : DoneResult :=
  match g.onDone with
  | some f => f observed
  | none =>
      match observed with
      | .success => DoneResult.success
      | _ => DoneResult.error

/-- Modelled from the spec: a group reaching its terminal state — its done
handler runs (observing the outcome, and possibly rewriting it; with no
handler `Cancel` maps to an effective `Error`), the instrumented read of the
active storage instance happens inside the handler, and the group's storage
instances are destroyed before the parent observes the outcome. -/
def finishGroup (g : GroupSpec) (sctx : Sctx) (own : List (Nat × Nat))
    (observed : DoneWith) (env : Env) : DoneResult × Env :=
  (finishGroupEff g observed, finishGroupEnv g sctx own observed env)

mutual
/-- Modelled from the spec: §4.2 — starting a node. A task dispatches its setup
handler and either begins its adapter or completes immediately with the
tweaked outcome; a sync leaf runs and completes at once; a barrier waiter
registers (completing immediately when the barrier is already satisfied); a
group declares its barriers and storage, runs its setup handler (whose
`StopWith*` result routes the group straight to a terminal state) and starts
children up to the parallel limit. `fuel` only bounds the recursion depth. -/
def startItemF : Nat → Sctx → Item → Env → Option (StartRes × Env)
  | 0, _, _, _ => none
  | fuel + 1, sctx, item, env =>
    match item with
    | .task id tsetup dur result onDone =>
        let env := env.emit (.taskSetup id)
        match tsetup with
        | .continue' => some (.running (.rtask id dur result onDone), env)
        | .stopWithSuccess => some (.done DoneResult.success, env.addProgress 1)
        | .stopWithError => some (.done DoneResult.error, env.addProgress 1)
    | .sync id result => some (.done result, env.emit (.syncRun id))
    | .waitB bid =>
        if env.satisfied bid then some (.done DoneResult.success, env.addProgress 1)
        else some (.running (.rwait bid), env)
    | .advanceB id dur bid =>
        some (.running (.radvance id dur bid), env.emit (.taskSetup id))
    | .timeoutT id dur h => some (.running (.rtimeout id dur h), env)
    | .group g ch =>
        let env := env.declareBarriers g.barrierDecls
        let (own, env) := createStorages g.cbKeys g.storages env
        let sctx' := own ++ sctx
        let env := match g.logSetup with
          | some gid => env.emit (.groupSetup gid)
          | none => env
        match g.setup with
        | .continue' => startListF fuel g sctx' own GroupAcc.init .nil ch env
        | .stopWithSuccess =>
            let env := env.addProgress (leafCountL ch)
            let (eff, env) := finishGroup g sctx' own .success env
            some (.done eff, env)
        | .stopWithError =>
            let env := env.addProgress (leafCountL ch)
            let (eff, env) := finishGroup g sctx' own .error env
            some (.done eff, env)

/-- Modelled from the spec: §4.2 step 3 — while slots are free and a next child
is available and no propagation decision has terminated the group, start the
next child; a child completing synchronously feeds the propagator, which may
cancel the remaining children and finalize the group; with no running and no
pending children the group finishes with the policy's accumulated outcome. -/
def startListF : Nat → GroupSpec → Sctx → List (Nat × Nat) → GroupAcc → RNodeList →
    ItemList → Env → Option (StartRes × Env)
  | 0, _, _, _, _, _, _, _ => none
  | fuel + 1, g, sctx, own, acc, running, pending, env =>
    match pending with
    | .nil =>
        match running with
        | .nil =>
            let (eff, env) := finishGroup g sctx own (accFinal g.policy acc).toDoneWith env
            some (.done eff, env)
        | r => some (.running (.rgroup g sctx own acc r .nil), env)
    | .cons i rest =>
        if slotsFree g.mode running.length then
          match startItemF fuel sctx i env with
          | none => none
          | some (.running n, env) =>
              startListF fuel g sctx own acc (running.append (.cons n .nil)) rest env
          | some (.done r, env) =>
              let acc' := acc.add r
              if stopsOn g.policy r then
                match cancelListF fuel running env with
                | none => none
                | some env =>
                    let env := env.addProgress (leafCountL rest)
                    let (eff, env) :=
                      finishGroup g sctx own (accFinal g.policy acc').toDoneWith env
                    some (.done eff, env)
              else startListF fuel g sctx own acc' running rest env
        else some (.running (.rgroup g sctx own acc running pending), env)

/-- Modelled from the spec: cancellation of a running node. A cancelled task
always dispatches its error-side done handler, which observes `Canceled` and
whose return value becomes the child's effective outcome (`Error` with no
handler); a cancelled waiter is removed without side effects; a cancelled
group cancels its running children leaf-first, skips its pending children and
finishes observing `Canceled`. Every cancelled leaf advances progress. -/
def cancelNodeF : Nat → RNode → Env → Option (DoneResult × Env)
  | 0, _, _ => none
  | fuel + 1, n, env =>
    match n with
    | .rtask id _ _ onDone =>
        match onDone with
        | some f => some (f .cancel, (env.emit (.taskDone id .cancel)).addProgress 1)
        | none => some (DoneResult.error, env.addProgress 1)
    | .rwait _ => some (DoneResult.error, env.addProgress 1)
    | .radvance _ _ _ => some (DoneResult.error, env.addProgress 1)
    | .rtimeout _ _ _ => some (DoneResult.error, env.addProgress 1)
    | .rgroup g sctx own _ running pending =>
        match cancelListF fuel running env with
        | none => none
        | some env =>
            let env := env.addProgress (leafCountL pending)
            let (eff, env) := finishGroup g sctx own .cancel env
            some (eff, env)

/-- Cancels every node of a list in order. -/
def cancelListF : Nat → RNodeList → Env → Option Env
  | 0, _, _ => none
  | fuel + 1, l, env =>
    match l with
    | .nil => some env
    | .cons n rest =>
        match cancelNodeF fuel n env with
        | none => none
        | some (_, env) => cancelListF fuel rest env

/-- Modelled from the spec: delivery of due completions on the driver context.
A running task whose remaining duration reached zero completes, dispatching
its done handler with the observed outcome; a waiter completes once its
barrier is satisfied; an advancer bumps its barrier on completion; a timeout
leaf fires its handler (when supplied) and completes with `Error`; a group
settles its children and lets the propagator react. -/
def settleNodeF : Nat → RNode → Env → Option (StartRes × Env)
  | 0, _, _ => none
  | fuel + 1, n, env =>
    match n with
    | .rtask id rem result onDone =>
        if rem == 0 then
          match onDone with
          | some f =>
              some (.done (f result.toDoneWith),
                (env.emit (.taskDone id result.toDoneWith)).addProgress 1)
          | none => some (.done result, env.addProgress 1)
        else some (.running n, env)
    | .rwait bid =>
        if env.satisfied bid then some (.done DoneResult.success, env.addProgress 1)
        else some (.running n, env)
    | .radvance id rem bid =>
        if rem == 0 then
          some (.done DoneResult.success,
            ((env.bumpBarrier bid).emit (.barrierAdvanced id)).addProgress 1)
        else some (.running n, env)
    | .rtimeout id rem h =>
        if rem == 0 then
          let env := if h then env.emit (.timeoutFired id) else env
          some (.done DoneResult.error, env.addProgress 1)
        else some (.running n, env)
    | .rgroup g sctx own acc running pending =>
        settleListF fuel g sctx own acc .nil running pending env

/-- Modelled from the spec: §4.2 step 4 — each completed child feeds the
outcome propagator; when the policy's stop column triggers, the remaining live
children are cancelled (their error-side done handlers dispatched) and the
unstarted children skipped before the group's own done handler runs; otherwise
the group keeps scheduling, refilling free slots from the pending children. -/
def settleListF : Nat → GroupSpec → Sctx → List (Nat × Nat) → GroupAcc → RNodeList →
    RNodeList → ItemList → Env → Option (StartRes × Env)
  | 0, _, _, _, _, _, _, _, _ => none
  | fuel + 1, g, sctx, own, acc, processed, toProcess, pending, env =>
    match toProcess with
    | .nil => startListF fuel g sctx own acc processed pending env
    | .cons n rest =>
        match settleNodeF fuel n env with
        | none => none
        | some (.running n', env) =>
            settleListF fuel g sctx own acc (processed.append (.cons n' .nil)) rest pending env
        | some (.done r, env) =>
            let acc' := acc.add r
            if stopsOn g.policy r then
              match cancelListF fuel processed env with
              | none => none
              | some env =>
                  match cancelListF fuel rest env with
                  | none => none
                  | some env =>
                      let env := env.addProgress (leafCountL pending)
                      let (eff, env) :=
                        finishGroup g sctx own (accFinal g.policy acc').toDoneWith env
                      some (.done eff, env)
            else settleListF fuel g sctx own acc' processed rest pending env
end

mutual
/-- The least remaining duration among the running asynchronous leaves — the
delay until the next external completion event. -/
def minRemN : RNode → Option Nat
  | .rtask _ rem _ _ => some rem
  | .rwait _ => none
  | .radvance _ rem _ => some rem
  | .rtimeout _ rem _ => some rem
  | .rgroup _ _ _ _ running _ => minRemL running

/-- Least remaining duration over a runtime-node list. -/
def minRemL : RNodeList → Option Nat
  | .nil => none
  | .cons n rest =>
      match minRemN n, minRemL rest with
      | some a, some b => some (min a b)
      | some a, none => some a
      | none, some b => some b
      | none, none => none
end

mutual
/-- Advances the logical clock by `d` on every running leaf. -/
def shiftN (d : Nat) : RNode → RNode
  | .rtask id rem r od => .rtask id (rem - d) r od
  | .rwait bid => .rwait bid
  | .radvance id rem bid => .radvance id (rem - d) bid
  | .rtimeout id rem h => .rtimeout id (rem - d) h
  | .rgroup g sctx own acc running pending => .rgroup g sctx own acc (shiftL d running) pending

/-- Advances the logical clock on a runtime-node list. -/
def shiftL (d : Nat) : RNodeList → RNodeList
  | .nil => .nil
  | .cons n rest => .cons (shiftN d n) (shiftL d rest)
end

/-- Modelled from the spec: the blocking driver loop — settle all due
completions on the driver context; as long as settling made progress, settle
again in the same turn (cascaded wakeups); otherwise advance the clock to the
next external completion event; stop when the root reaches a terminal
outcome. -/
def loopF : Nat → RNode → Env → Option (DoneResult × Env)
  | 0, _, _ => none
  | fuel + 1, n, env =>
    match settleNodeF (fuel + 1) n env with
    | none => none
    | some (.done r, env') => some (r, env')
    | some (.running n', env') =>
        if env.progress < env'.progress then loopF fuel n' env'
        else
          match minRemN n' with
          | none => none
          | some d => loopF fuel (shiftN d n') env'

/-- Modelled from the spec: `run_blocking` — compile and start the recipe, then
drive the context to completion; returns the root's effective result and the
final environment. -/
def runRecipe (item : Item) (fuel : Nat) : Option (DoneResult × Env) :=
  match startItemF fuel [] item Env.init with
  | none => none
  | some (.done r, env) => some (r, env)
  | some (.running n, env) => loopF fuel n env

/-- The final outcome of a run. -/
def runOutcome (item : Item) (fuel : Nat) : Option DoneResult :=
  (runRecipe item fuel).map Prod.fst

/-- The event trace of a run, oldest event first. -/
def runTrace (item : Item) (fuel : Nat) : Option (List Event) :=
  (runRecipe item fuel).map (fun p => p.2.rtrace.reverse)

/-- The final progress value of a run. -/
def runProgress (item : Item) (fuel : Nat) : Option Nat :=
  (runRecipe item fuel).map (fun p => p.2.progress)

/-- Destroys storage instances without invoking any handler or callback (the
path taken when a running controller is dropped). -/
def destroyBare : List (Nat × Nat) → Env → Env
  | [], env => env
  | (k, i) :: rest, env => destroyBare rest (env.emit (.storageDestroy k i))

mutual
/-- Modelled from the spec: dropping a running controller — every storage
instance created for the run is destroyed (children first, each group's own
instances in reverse creation order), but no done handler and no storage-done
callback is invoked. -/
def destroyN : RNode → Env → Env
  | .rgroup _ _ own _ running _, env => destroyBare own.reverse (destroyL running env)
  | _, env => env

/-- Destructor walk over a runtime-node list. -/
def destroyL : RNodeList → Env → Env
  | .nil, env => env
  | .cons n rest, env => destroyL rest (destroyN n env)
end

/-- Modelled from the spec: start a recipe and immediately drop the running
controller, before the tree reaches a terminal outcome. -/
def startAndDestroy (item : Item) (fuel : Nat) : Option Env :=
  match startItemF fuel [] item Env.init with
  | none => none
  | some (.done _, env) => some env
  | some (.running n, env) => some (destroyN n env)

/-- Modelled from the spec: the `withTimeout(d, handler?)` modifier — the node
is raced in parallel against a timeout task under `StopOnSuccessOrError`; the
first finisher decides the wrapper's outcome and cancels the other side. The
timeout task is one additional asynchronous leaf. -/
def Item.withTimeout (it : Item) (d : Nat) (hasHandler : Bool) (tid : Nat) : Item :=
  .group { mode := .parallel, policy := .stopOnSuccessOrError }
    (.cons (.timeoutT tid d hasHandler) (.cons it .nil))

/-- Whether an event is the creation of a storage instance. -/
def isCreate : Event → Bool
  | .storageCreate _ _ => true
  | _ => false

/-- Whether an event is the destruction of a storage instance. -/
def isDestroy : Event → Bool
  | .storageDestroy _ _ => true
  | _ => false

/-- Whether an event is a storage-done controller callback. -/
def isDoneCb : Event → Bool
  | .storageDoneCb _ _ => true
  | _ => false

/-- Count of storage instances a trace created. -/
def createCount : List Event → Nat
  | [] => 0
  | e :: tr => createCount tr + (if isCreate e then 1 else 0)

/-- Count of storage instances a trace destroyed. -/
def destroyCount : List Event → Nat
  | [] => 0
  | e :: tr => destroyCount tr + (if isDestroy e then 1 else 0)

/-- Count of storage-done controller callbacks a trace invoked. -/
def doneCbCount : List Event → Nat
  | [] => 0
  | e :: tr => doneCbCount tr + (if isDoneCb e then 1 else 0)

mutual
/-- Number of live storage instances held by the runtime tree. -/
def liveCountN : RNode → Nat
  | .rgroup _ _ own _ running _ => own.length + liveCountL running
  | _ => 0

/-- Live storage instances of a runtime-node list. -/
def liveCountL : RNodeList → Nat
  | .nil => 0
  | .cons n rest => liveCountN n + liveCountL rest
end

/-- The test suite's standard task done handler: logs and returns the task's
own result on a normal finish and `Error` when the task was cancelled. -/
def stdDone (r : DoneResult) : DoneWith → DoneResult :=
  fun w => match w with
  | .cancel => DoneResult.error
  | _ => r

/-- A plain asynchronous test task with a setup and a standard done handler. -/
def mkTask (id : Nat) (dur : Nat) (r : DoneResult) : Item :=
  .task id .continue' dur r (some (stdDone r))

/-- A count of asynchronous leaves not yet terminal in a start/settle result. -/
def resCount : StartRes → Nat
  | .running n => rCountN n
  | .done _ => 0

/-- A count of live storage instances in a start/settle result. -/
def resLive : StartRes → Nat
  | .running n => liveCountN n
  | .done _ => 0

/-- An event an engine-driven cancellation may emit: done handlers observe
`Canceled`, and storage teardown proceeds as on a normal exit. -/
def cancelEventOk : Event → Bool
  | .taskDone _ w => w == DoneWith.cancel
  | .groupDone _ w => w == DoneWith.cancel
  | .activeRead _ _ _ => true
  | .storageDoneCb _ _ => true
  | .storageDestroy _ _ => true
  | _ => false

/-- A sequential chain of zero-duration test tasks with the given ids and
results. -/
def seqTasks : List (Nat × DoneResult) → ItemList
  | [] => .nil
  | (i, r) :: rest => .cons (mkTask i 0 r) (seqTasks rest)

/-- Group spec of a sequential-flavor group (mode `m` with parallel limit 1)
running under workflow policy `p`, with a logging done handler. -/
def seqSpec (m : ExecMode) (p : WorkflowPolicy) : GroupSpec :=
  { mode := m, policy := p, logDone := some 0 }

/-- A group of mode `m` and policy `p` over a sequential chain of
zero-duration tasks. -/
def seqGroup (m : ExecMode) (p : WorkflowPolicy) (ts : List (Nat × DoneResult)) : Item :=
  .group (seqSpec m p) (seqTasks ts)

/-- The runtime state of a sequential group in mid-run: one running
zero-duration task, the rest still pending. -/
def seqState (m : ExecMode) (p : WorkflowPolicy) (acc : GroupAcc) (i : Nat) (r : DoneResult)
    (rest : List (Nat × DoneResult)) : RNode :=
  .rgroup (seqSpec m p) [] [] acc
    (.cons (.rtask i 0 r (some (stdDone r))) .nil) (seqTasks rest)

/-- The strictly alternating `Setup(i), Done(i)` log of a successful
sequential chain, accumulated most-recent-first onto `tr`. -/
def seqRLog : List (Nat × DoneResult) → List Event → List Event
  | [], tr => tr
  | (i, r) :: rest, tr =>
      seqRLog rest (.taskDone i r.toDoneWith :: .taskSetup i :: tr)

/-- The strictly alternating `Setup(i), Done(i)` log of a successful
sequential chain, in chronological order. -/
def seqLog : List (Nat × DoneResult) → List Event
  | [] => []
  | (i, r) :: rest => .taskSetup i :: .taskDone i r.toDoneWith :: seqLog rest

/-- Depth-indexed tower of nested groups that all declare storage key 5,
with the outermost group labelled `n` and the innermost labelled 0; every
group's done handler reads the key's active instance. -/
def nest : Nat → Item
  | 0 => .group { storages := [5], logDone := some 0, readsKey := some 5 } .nil
  | n + 1 =>
      .group { storages := [5], logDone := some (n + 1), readsKey := some 5 }
        (.cons (nest n) .nil)

/-- The expected log of running `nest n` when the next fresh instance id is
`b`, accumulated most-recent-first onto `tr`: each level's done handler reads
the instance created at that level's entry, and the instance is destroyed
right after the read, before the parent's done handler. -/
def nestRLog : Nat → Nat → List Event → List Event
  | 0, b, tr =>
      .storageDestroy 5 b :: .activeRead 0 5 b :: .groupDone 0 .success ::
        .storageCreate 5 b :: tr
  | n + 1, b, tr =>
      .storageDestroy 5 b :: .activeRead (n + 1) 5 b :: .groupDone (n + 1) .success ::
        nestRLog n (b + 1) (.storageCreate 5 b :: tr)

/-- Mirror of the test suite's `storageShadowingData` recipe: a root declaring
keys 9 and 5, a middle group redeclaring key 5 and two innermost sibling
groups redeclaring key 5 again. -/
def shadowRecipe : Item :=
  .group { storages := [9, 5], logSetup := some 1, logDone := some 1, readsKey := some 5 }
    (.cons
      (.group { storages := [5], logSetup := some 2, logDone := some 2, readsKey := some 5 }
        (.cons
          (.group { storages := [5], logSetup := some 3, logDone := some 3, readsKey := some 5 }
            .nil)
          (.cons
            (.group { storages := [5], logSetup := some 4, logDone := some 4, readsKey := some 5 }
              .nil)
            .nil)))
      .nil)

/-- Mirror of the `StopGroupWithFinishAllAndSuccess` test rows: a parallel
root under `StopOnError` whose first child is a subgroup of policy `p` with
one long task, raced against a short failing task. -/
def outerCancelRecipe (p : WorkflowPolicy) : Item :=
  .group { mode := .parallel, policy := .stopOnError, logDone := some 2 }
    (.cons
      (.group { policy := p, logDone := some 1 }
        (.cons (mkTask 1 1000 .success) .nil))
      (.cons (mkTask 2 1 .error) .nil))

/-- A parallel `StopOnError` pair: a long task with an arbitrary done handler
`f`, raced against a short failing task — the engine cancels the long task
when its sibling errors. -/
def siblingStopRecipe (f : DoneWith → DoneResult) : Item :=
  .group { mode := .parallel, policy := .stopOnError, logDone := some 0 }
    (.cons (.task 1 .continue' 1000 .success (some f))
      (.cons (mkTask 2 1 .error) .nil))

/-- Mirror of the `BarrierSequential` test row: the barrier-advancing task
precedes, in tree order, the sequential group that waits on the barrier. -/
def barrierSeqRecipe : Item :=
  .group { barrierDecls := [(7, 1)] }
    (.cons (.advanceB 1 1 7)
      (.cons
        (.group { logSetup := some 2 }
          (.cons (.waitB 7) (.cons (mkTask 2 0 .success) (.cons (mkTask 3 0 .success) .nil))))
        .nil))

/-- Mirror of the `BarrierParallelMultiWaitFor` test row: a single advance
wakes the waiters registered in two parallel subgroups. -/
def barrierMultiRecipe : Item :=
  .group { mode := .parallel, barrierDecls := [(7, 1)] }
    (.cons (.advanceB 1 1 7)
      (.cons (.group { logSetup := some 2 } (.cons (.waitB 7) (.cons (mkTask 4 0 .success) .nil)))
        (.cons (.group { logSetup := some 3 } (.cons (.waitB 7) (.cons (mkTask 5 0 .success) .nil)))
          .nil)))

/-- A barrier with required advance count 2, two advancers completing at
different times and a waiting subgroup (the `MultiBarrier` test rows). -/
def barrierTwoRecipe : Item :=
  .group { mode := .parallel, barrierDecls := [(7, 2)] }
    (.cons (.advanceB 1 1 7)
      (.cons (.advanceB 2 2 7)
        (.cons (.group { logSetup := some 2 } (.cons (.waitB 7) (.cons (mkTask 3 0 .success) .nil)))
          .nil)))

/-- Mirror of the `storageDestructor` test: a root group declaring storage key
0 with controller setup/done callbacks, running one long sleeping task without
a done handler. -/
def destructorRecipe : Item :=
  .group { storages := [0], cbKeys := [0] }
    (.cons (.task 1 .continue' 1000 .success none) .nil)

/-- Group spec of the parallel race the `withTimeout` modifier creates. -/
def wtSpec : GroupSpec := { mode := .parallel, policy := .stopOnSuccessOrError }

/-- Runtime state of a `withTimeout` wrapper while both sides race: the
timeout leaf and the wrapped task are running in parallel. -/
def wtState (tid d : Nat) (hb : Bool) (id t : Nat) (r : DoneResult)
    (f : DoneWith → DoneResult) : RNode :=
  .rgroup wtSpec [] [] GroupAcc.init
    (.cons (.rtimeout tid d hb) (.cons (.rtask id t r (some f)) .nil)) .nil

theorem startItemF_task (f : Nat) (sctx : Sctx) (id : Nat) (ts : SetupResult) (dur : Nat)
    (result : DoneResult) (onDone : Option (DoneWith → DoneResult)) (env : Env) :
    startItemF (f + 1) sctx (.task id ts dur result onDone) env =
      match ts with
      | .continue' => some (.running (.rtask id dur result onDone), env.emit (.taskSetup id))
      | .stopWithSuccess =>
          some (.done DoneResult.success, (env.emit (.taskSetup id)).addProgress 1)
      | .stopWithError =>
          some (.done DoneResult.error, (env.emit (.taskSetup id)).addProgress 1) := rfl

theorem startItemF_sync (f : Nat) (sctx : Sctx) (id : Nat) (r : DoneResult) (env : Env) :
    startItemF (f + 1) sctx (.sync id r) env = some (.done r, env.emit (.syncRun id)) := rfl

theorem startItemF_waitB (f : Nat) (sctx : Sctx) (bid : Nat) (env : Env) :
    startItemF (f + 1) sctx (.waitB bid) env =
      if env.satisfied bid then some (.done DoneResult.success, env.addProgress 1)
      else some (.running (.rwait bid), env) := rfl

theorem startItemF_advanceB (f : Nat) (sctx : Sctx) (id dur bid : Nat) (env : Env) :
    startItemF (f + 1) sctx (.advanceB id dur bid) env =
      some (.running (.radvance id dur bid), env.emit (.taskSetup id)) := rfl

theorem startItemF_timeoutT (f : Nat) (sctx : Sctx) (id dur : Nat) (hh : Bool) (env : Env) :
    startItemF (f + 1) sctx (.timeoutT id dur hh) env =
      some (.running (.rtimeout id dur hh), env) := rfl

theorem startItemF_group (f : Nat) (sctx : Sctx) (g : GroupSpec) (ch : ItemList) (env : Env) :
    startItemF (f + 1) sctx (.group g ch) env =
      (let envB := env.declareBarriers g.barrierDecls
       let pr := createStorages g.cbKeys g.storages envB
       let envS := match g.logSetup with
         | some gid => pr.2.emit (.groupSetup gid)
         | none => pr.2
       match g.setup with
       | .continue' => startListF f g (pr.1 ++ sctx) pr.1 GroupAcc.init .nil ch envS
       | .stopWithSuccess =>
           some (.done (finishGroupEff g .success),
             finishGroupEnv g (pr.1 ++ sctx) pr.1 .success (envS.addProgress (leafCountL ch)))
       | .stopWithError =>
           some (.done (finishGroupEff g .error),
             finishGroupEnv g (pr.1 ++ sctx) pr.1 .error
               (envS.addProgress (leafCountL ch)))) := rfl

theorem startListF_nil_nil (f : Nat) (g : GroupSpec) (sctx : Sctx) (own : List (Nat × Nat))
    (acc : GroupAcc) (env : Env) :
    startListF (f + 1) g sctx own acc .nil .nil env =
      some (.done (finishGroupEff g (accFinal g.policy acc).toDoneWith),
        finishGroupEnv g sctx own (accFinal g.policy acc).toDoneWith env) := rfl

theorem startListF_nil_cons (f : Nat) (g : GroupSpec) (sctx : Sctx) (own : List (Nat × Nat))
    (acc : GroupAcc) (n : RNode) (rest : RNodeList) (env : Env) :
    startListF (f + 1) g sctx own acc (.cons n rest) .nil env =
      some (.running (.rgroup g sctx own acc (.cons n rest) .nil), env) := rfl

theorem startListF_cons (f : Nat) (g : GroupSpec) (sctx : Sctx) (own : List (Nat × Nat))
    (acc : GroupAcc) (running : RNodeList) (i : Item) (rest : ItemList) (env : Env) :
    startListF (f + 1) g sctx own acc running (.cons i rest) env =
      (if slotsFree g.mode running.length then
        match startItemF f sctx i env with
        | none => none
        | some (.running n, env) =>
            startListF f g sctx own acc (running.append (.cons n .nil)) rest env
        | some (.done r, env) =>
            if stopsOn g.policy r then
              match cancelListF f running env with
              | none => none
              | some env =>
                  some (.done (finishGroupEff g (accFinal g.policy (acc.add r)).toDoneWith),
                    finishGroupEnv g sctx own (accFinal g.policy (acc.add r)).toDoneWith
                      (env.addProgress (leafCountL rest)))
            else startListF f g sctx own (acc.add r) running rest env
      else some (.running (.rgroup g sctx own acc running (.cons i rest)), env)) := rfl

theorem cancelNodeF_rtask (f : Nat) (id rem : Nat) (res : DoneResult)
    (onDone : Option (DoneWith → DoneResult)) (env : Env) :
    cancelNodeF (f + 1) (.rtask id rem res onDone) env =
      match onDone with
      | some fn => some (fn .cancel, (env.emit (.taskDone id .cancel)).addProgress 1)
      | none => some (DoneResult.error, env.addProgress 1) := rfl

theorem cancelNodeF_rwait (f : Nat) (bid : Nat) (env : Env) :
    cancelNodeF (f + 1) (.rwait bid) env = some (DoneResult.error, env.addProgress 1) := rfl

theorem cancelNodeF_radvance (f : Nat) (id rem bid : Nat) (env : Env) :
    cancelNodeF (f + 1) (.radvance id rem bid) env =
      some (DoneResult.error, env.addProgress 1) := rfl

theorem cancelNodeF_rtimeout (f : Nat) (id rem : Nat) (hh : Bool) (env : Env) :
    cancelNodeF (f + 1) (.rtimeout id rem hh) env =
      some (DoneResult.error, env.addProgress 1) := rfl

theorem cancelNodeF_rgroup (f : Nat) (g : GroupSpec) (sctx : Sctx) (own : List (Nat × Nat))
    (acc : GroupAcc) (running : RNodeList) (pending : ItemList) (env : Env) :
    cancelNodeF (f + 1) (.rgroup g sctx own acc running pending) env =
      match cancelListF f running env with
      | none => none
      | some env =>
          some (finishGroupEff g .cancel,
            finishGroupEnv g sctx own .cancel (env.addProgress (leafCountL pending))) := rfl

theorem cancelListF_nil (f : Nat) (env : Env) : cancelListF (f + 1) .nil env = some env := rfl

theorem cancelListF_cons (f : Nat) (n : RNode) (rest : RNodeList) (env : Env) :
    cancelListF (f + 1) (.cons n rest) env =
      match cancelNodeF f n env with
      | none => none
      | some (_, env) => cancelListF f rest env := rfl

theorem settleNodeF_rtask (f : Nat) (id rem : Nat) (result : DoneResult)
    (onDone : Option (DoneWith → DoneResult)) (env : Env) :
    settleNodeF (f + 1) (.rtask id rem result onDone) env =
      (if rem == 0 then
        match onDone with
        | some fn =>
            some (.done (fn result.toDoneWith),
              (env.emit (.taskDone id result.toDoneWith)).addProgress 1)
        | none => some (.done result, env.addProgress 1)
      else some (.running (.rtask id rem result onDone), env)) := rfl

theorem settleNodeF_rwait (f : Nat) (bid : Nat) (env : Env) :
    settleNodeF (f + 1) (.rwait bid) env =
      (if env.satisfied bid then some (.done DoneResult.success, env.addProgress 1)
      else some (.running (.rwait bid), env)) := rfl

theorem settleNodeF_radvance (f : Nat) (id rem bid : Nat) (env : Env) :
    settleNodeF (f + 1) (.radvance id rem bid) env =
      (if rem == 0 then
        some (.done DoneResult.success,
          ((env.bumpBarrier bid).emit (.barrierAdvanced id)).addProgress 1)
      else some (.running (.radvance id rem bid), env)) := rfl

theorem settleNodeF_rtimeout (f : Nat) (id rem : Nat) (hh : Bool) (env : Env) :
    settleNodeF (f + 1) (.rtimeout id rem hh) env =
      (if rem == 0 then
        some (.done DoneResult.error, (if hh then env.emit (.timeoutFired id) else env).addProgress 1)
      else some (.running (.rtimeout id rem hh), env)) := rfl

theorem settleNodeF_rgroup (f : Nat) (g : GroupSpec) (sctx : Sctx) (own : List (Nat × Nat))
    (acc : GroupAcc) (running : RNodeList) (pending : ItemList) (env : Env) :
    settleNodeF (f + 1) (.rgroup g sctx own acc running pending) env =
      settleListF f g sctx own acc .nil running pending env := rfl

theorem settleListF_nil (f : Nat) (g : GroupSpec) (sctx : Sctx) (own : List (Nat × Nat))
    (acc : GroupAcc) (processed : RNodeList) (pending : ItemList) (env : Env) :
    settleListF (f + 1) g sctx own acc processed .nil pending env =
      startListF f g sctx own acc processed pending env := rfl

theorem settleListF_cons (f : Nat) (g : GroupSpec) (sctx : Sctx) (own : List (Nat × Nat))
    (acc : GroupAcc) (processed : RNodeList) (n : RNode) (rest : RNodeList)
    (pending : ItemList) (env : Env) :
    settleListF (f + 1) g sctx own acc processed (.cons n rest) pending env =
      (match settleNodeF f n env with
      | none => none
      | some (.running n', env) =>
          settleListF f g sctx own acc (processed.append (.cons n' .nil)) rest pending env
      | some (.done r, env) =>
          if stopsOn g.policy r then
            match cancelListF f processed env with
            | none => none
            | some env =>
                match cancelListF f rest env with
                | none => none
                | some env =>
                    some (.done (finishGroupEff g (accFinal g.policy (acc.add r)).toDoneWith),
                      finishGroupEnv g sctx own (accFinal g.policy (acc.add r)).toDoneWith
                        (env.addProgress (leafCountL pending)))
          else settleListF f g sctx own (acc.add r) processed rest pending env) := rfl

theorem loopF_succ (f : Nat) (n : RNode) (env : Env) :
    loopF (f + 1) n env =
      (match settleNodeF (f + 1) n env with
      | none => none
      | some (.done r, env') => some (r, env')
      | some (.running n', env') =>
          if env.progress < env'.progress then loopF f n' env'
          else
            match minRemN n' with
            | none => none
            | some d => loopF f (shiftN d n') env') := rfl

theorem runChildren_stopOnError :
    ∀ (rs : List DoneResult) (acc : GroupAcc), acc.anyError = false →
      runChildren .stopOnError acc rs =
        if rs.contains DoneResult.error then DoneResult.error else DoneResult.success := by
  intro rs
  induction rs with
  | nil => intro acc h; simp [runChildren, accFinal, h]
  | cons r rs ih =>
      intro acc h
      cases r with
      | success =>
          rw [runChildren]
          simp only [stopsOn]
          rw [if_neg (by simp)]
          rw [ih _ (by simp [GroupAcc.add, h])]
          simp [List.contains_cons]
      | error =>
          rw [runChildren]
          simp [stopsOn, accFinal, GroupAcc.add, List.contains_cons]

theorem runChildren_continueOnError :
    ∀ (rs : List DoneResult) (acc : GroupAcc), acc.anyError = false →
      runChildren .continueOnError acc rs =
        if rs.contains DoneResult.error then DoneResult.error else DoneResult.success := by
  intro rs
  induction rs with
  | nil => intro acc h; simp [runChildren, accFinal, h]
  | cons r rs ih =>
      intro acc h
      cases r with
      | success =>
          rw [runChildren]
          simp only [stopsOn, if_false]
          rw [ih _ (by simp [GroupAcc.add, h])]
          simp [List.contains_cons]
      | error =>
          rw [runChildren]
          simp only [stopsOn, if_false]
          have : ∀ (rs : List DoneResult) (acc : GroupAcc), acc.anyError = true →
              runChildren .continueOnError acc rs = DoneResult.error := by
            intro rs
            induction rs with
            | nil => intro acc h; simp [runChildren, accFinal, h]
            | cons r rs ih2 =>
                intro acc h
                rw [runChildren]
                simp only [stopsOn, if_false]
                exact ih2 _ (by simp [GroupAcc.add, h])
          rw [this _ _ (by simp [GroupAcc.add])]
          simp [List.contains_cons]

theorem runChildren_stopOnSuccess :
    ∀ (rs : List DoneResult) (acc : GroupAcc), acc.anySuccess = false →
      runChildren .stopOnSuccess acc rs =
        if rs.contains DoneResult.success then DoneResult.success else DoneResult.error := by
  intro rs
  induction rs with
  | nil => intro acc h; simp [runChildren, accFinal, h]
  | cons r rs ih =>
      intro acc h
      cases r with
      | error =>
          rw [runChildren]
          simp only [stopsOn]
          rw [if_neg (by simp)]
          rw [ih _ (by simp [GroupAcc.add, h])]
          simp [List.contains_cons]
      | success =>
          rw [runChildren]
          simp [stopsOn, accFinal, GroupAcc.add, List.contains_cons]

theorem runChildren_continueOnSuccess :
    ∀ (rs : List DoneResult) (acc : GroupAcc), acc.anySuccess = false →
      runChildren .continueOnSuccess acc rs =
        if rs.contains DoneResult.success then DoneResult.success else DoneResult.error := by
  intro rs
  induction rs with
  | nil => intro acc h; simp [runChildren, accFinal, h]
  | cons r rs ih =>
      intro acc h
      cases r with
      | error =>
          rw [runChildren]
          simp only [stopsOn, if_false]
          rw [ih _ (by simp [GroupAcc.add, h])]
          simp [List.contains_cons]
      | success =>
          rw [runChildren]
          simp only [stopsOn, if_false]
          have : ∀ (rs : List DoneResult) (acc : GroupAcc), acc.anySuccess = true →
              runChildren .continueOnSuccess acc rs = DoneResult.success := by
            intro rs
            induction rs with
            | nil => intro acc h; simp [runChildren, accFinal, h]
            | cons r rs ih2 =>
                intro acc h
                rw [runChildren]
                simp only [stopsOn, if_false]
                exact ih2 _ (by simp [GroupAcc.add, h])
          rw [this _ _ (by simp [GroupAcc.add])]
          simp [List.contains_cons]

theorem runChildren_finishAll (p : WorkflowPolicy)
    (hp : p = .finishAllAndSuccess ∨ p = .finishAllAndError) :
    ∀ (rs : List DoneResult) (acc : GroupAcc),
      runChildren p acc rs = accFinal p acc := by
  intro rs
  induction rs with
  | nil => intro acc; rfl
  | cons r rs ih =>
      intro acc
      rw [runChildren]
      rcases hp with h | h <;> subst h <;>
        simp only [stopsOn, if_false] <;> rw [ih] <;> rfl

/-- C1: for every group whose children all run to completion without external
cancellation, the engine's incremental outcome propagator computes exactly the
declarative workflow-policy table over the children's outcomes (including the
empty-group defaults), and a setup handler that returns `StopWithSuccess` /
`StopWithError` overrides the children and the empty-group default. -/
theorem C1_policy_soundness :
    (∀ (p : WorkflowPolicy) (rs : List DoneResult),
        runChildren p GroupAcc.init rs = policyTable p rs)
  ∧ (∀ (p : WorkflowPolicy) (rs : List DoneResult),
        groupOutcome p .stopWithSuccess rs = DoneResult.success
      ∧ groupOutcome p .stopWithError rs = DoneResult.error
      ∧ groupOutcome p .continue' rs = policyTable p rs)
  ∧ (∀ p : WorkflowPolicy,
        runOutcome (.group { policy := p } .nil) 3 = some (policyTable p []))
  ∧ (∀ p : WorkflowPolicy,
        runOutcome (.group { policy := p, setup := .stopWithSuccess } (.cons (mkTask 1 0 .error) .nil)) 3
            = some DoneResult.success
      ∧ runOutcome (.group { policy := p, setup := .stopWithError } (.cons (mkTask 1 0 .success) .nil)) 3
            = some DoneResult.error) := by
  have main : ∀ (p : WorkflowPolicy) (rs : List DoneResult),
      runChildren p GroupAcc.init rs = policyTable p rs := by
    intro p rs
    cases p with
    | stopOnError => exact runChildren_stopOnError rs GroupAcc.init rfl
    | continueOnError => exact runChildren_continueOnError rs GroupAcc.init rfl
    | stopOnSuccess => exact runChildren_stopOnSuccess rs GroupAcc.init rfl
    | continueOnSuccess => exact runChildren_continueOnSuccess rs GroupAcc.init rfl
    | stopOnSuccessOrError =>
        cases rs with
        | nil => rfl
        | cons r rs => cases r <;> rfl
    | finishAllAndSuccess => rw [runChildren_finishAll _ (Or.inl rfl)]; rfl
    | finishAllAndError => rw [runChildren_finishAll _ (Or.inr rfl)]; rfl
  refine ⟨main, fun p rs => ⟨rfl, rfl, main p rs⟩, fun p => ?_, fun p => ⟨?_, ?_⟩⟩
  · cases p <;> rfl
  · cases p <;> rfl
  · cases p <;> rfl

/-- C10: the `withTimeout(d, h?)` modifier adds the timeout itself as exactly
one additional asynchronous leaf — wrapping any node adds 1 to its
`taskCount`/`progressMaximum`; a single wrapped task and a group containing
one wrapped task both report `taskCount == 2`. -/
theorem C10_withTimeout_adds_one_leaf :
    (∀ (it : Item) (d : Nat) (h : Bool) (tid : Nat),
        taskCount (it.withTimeout d h tid) = taskCount it + 1)
  ∧ taskCount ((Item.task 1 .continue' 1000 .success none).withTimeout 1 false 9) = 2
  ∧ taskCount (.group {} (.cons ((mkTask 1 1000 .success).withTimeout 1 false 9) .nil)) = 2 := by
  refine ⟨fun it d h tid => ?_, rfl, rfl⟩
  simp [taskCount, Item.withTimeout, leafCountI, leafCountL]
  omega

theorem destroyOwn_rtrace (cb : List Nat) :
    ∀ (l : List (Nat × Nat)) (env : Env), ∃ δ : List Event,
      (destroyOwn cb l env).rtrace = δ ++ env.rtrace ∧ ∀ e ∈ δ, cancelEventOk e = true := by
  intro l
  induction l with
  | nil => intro env; exact ⟨[], rfl, by simp⟩
  | cons p rest ih =>
      intro env
      obtain ⟨k, i⟩ := p
      by_cases hc : cb.contains k
      · obtain ⟨δ, hδ, hok⟩ :=
          ih (((env.emit (.storageDoneCb k i))).emit (.storageDestroy k i))
        refine ⟨δ ++ [.storageDestroy k i, .storageDoneCb k i], ?_, ?_⟩
        · rw [destroyOwn, if_pos hc, hδ]
          simp [Env.emit]
        · intro e he
          simp only [List.mem_append, List.mem_cons, List.not_mem_nil, or_false] at he
          rcases he with he | he | he
          · exact hok e he
          · subst he; rfl
          · subst he; rfl
      · obtain ⟨δ, hδ, hok⟩ := ih (env.emit (.storageDestroy k i))
        refine ⟨δ ++ [.storageDestroy k i], ?_, ?_⟩
        · rw [destroyOwn, if_neg hc, hδ]
          simp [Env.emit]
        · intro e he
          simp only [List.mem_append, List.mem_cons, List.not_mem_nil, or_false] at he
          rcases he with he | he
          · exact hok e he
          · subst he; rfl

theorem finishGroup_cancel_rtrace (g : GroupSpec) (sctx : Sctx) (own : List (Nat × Nat))
    (env : Env) :
    ∃ δ : List Event, (finishGroupEnv g sctx own .cancel env).rtrace = δ ++ env.rtrace ∧
      ∀ e ∈ δ, cancelEventOk e = true := by
  have h1 : ∃ δ1 : List Event,
      (match g.logDone with
        | some gid => env.emit (.groupDone gid .cancel)
        | none => env).rtrace = δ1 ++ env.rtrace ∧ ∀ e ∈ δ1, cancelEventOk e = true := by
    cases g.logDone with
    | none => exact ⟨[], rfl, by simp⟩
    | some gid =>
        refine ⟨[.groupDone gid .cancel], rfl, ?_⟩
        intro e he
        simp only [List.mem_cons, List.not_mem_nil, or_false] at he
        subst he; rfl
  obtain ⟨δ1, hδ1, hok1⟩ := h1
  set envA := (match g.logDone with
    | some gid => env.emit (.groupDone gid .cancel)
    | none => env) with henvA
  have h2 : ∃ δ2 : List Event,
      (match g.readsKey with
        | some k => envA.emit (.activeRead (g.logDone.getD 0) k (lookupActive sctx k))
        | none => envA).rtrace = δ2 ++ env.rtrace ∧ ∀ e ∈ δ2, cancelEventOk e = true := by
    cases g.readsKey with
    | none => exact ⟨δ1, hδ1, hok1⟩
    | some k =>
        refine ⟨.activeRead (g.logDone.getD 0) k (lookupActive sctx k) :: δ1, ?_, ?_⟩
        · show _ :: envA.rtrace = _
          rw [hδ1]; rfl
        · intro e he
          simp only [List.mem_cons] at he
          rcases he with he | he
          · subst he; rfl
          · exact hok1 e he
  obtain ⟨δ2, hδ2, hok2⟩ := h2
  set envB := (match g.readsKey with
    | some k => envA.emit (.activeRead (g.logDone.getD 0) k (lookupActive sctx k))
    | none => envA) with henvB
  obtain ⟨δ3, hδ3, hok3⟩ := destroyOwn_rtrace g.cbKeys own.reverse envB
  refine ⟨δ3 ++ δ2, ?_, ?_⟩
  · show (destroyOwn g.cbKeys own.reverse envB).rtrace = _
    rw [hδ3, hδ2, List.append_assoc]
  · intro e he
    rcases List.mem_append.1 he with h | h
    · exact hok3 e h
    · exact hok2 e h

theorem cancel_rtrace : ∀ fuel : Nat,
    (∀ (n : RNode) (env : Env) (r : DoneResult) (env' : Env),
        cancelNodeF fuel n env = some (r, env') →
        ∃ δ : List Event, env'.rtrace = δ ++ env.rtrace ∧ ∀ e ∈ δ, cancelEventOk e = true)
  ∧ (∀ (l : RNodeList) (env env' : Env),
        cancelListF fuel l env = some env' →
        ∃ δ : List Event, env'.rtrace = δ ++ env.rtrace ∧ ∀ e ∈ δ, cancelEventOk e = true) := by
  intro fuel
  induction fuel with
  | zero =>
      constructor
      · intro n env r env' h; simp [cancelNodeF] at h
      · intro l env env' h; simp [cancelListF] at h
  | succ f ih =>
      constructor
      · intro n env r env' h
        cases n with
        | rtask id rem res onDone =>
            cases onDone with
            | some g =>
                simp [cancelNodeF] at h
                obtain ⟨h1, h2⟩ := h
                refine ⟨[.taskDone id .cancel], ?_, ?_⟩
                · rw [← h2]; rfl
                · intro e he
                  simp only [List.mem_cons, List.not_mem_nil, or_false] at he
                  subst he; rfl
            | none =>
                simp [cancelNodeF] at h
                exact ⟨[], by rw [← h.2]; rfl, by simp⟩
        | rwait bid =>
            simp [cancelNodeF] at h
            exact ⟨[], by rw [← h.2]; rfl, by simp⟩
        | radvance id rem bid =>
            simp [cancelNodeF] at h
            exact ⟨[], by rw [← h.2]; rfl, by simp⟩
        | rtimeout id rem hh =>
            simp [cancelNodeF] at h
            exact ⟨[], by rw [← h.2]; rfl, by simp⟩
        | rgroup g sctx own acc running pending =>
            rw [cancelNodeF] at h
            cases hcl : cancelListF f running env with
            | none => rw [hcl] at h; simp at h
            | some env1 =>
                rw [hcl] at h
                simp only [Option.some.injEq, Prod.mk.injEq, finishGroup] at h
                obtain ⟨hr, henv⟩ := h
                obtain ⟨δ1, hδ1, hok1⟩ := ih.2 running env env1 hcl
                obtain ⟨δ2, hδ2, hok2⟩ :=
                  finishGroup_cancel_rtrace g sctx own (env1.addProgress (leafCountL pending))
                refine ⟨δ2 ++ δ1, ?_, ?_⟩
                · rw [← henv, hδ2]
                  have hp : (env1.addProgress (leafCountL pending)).rtrace = env1.rtrace := rfl
                  rw [hp, hδ1, List.append_assoc]
                · intro e he
                  rcases List.mem_append.1 he with h3 | h3
                  · exact hok2 e h3
                  · exact hok1 e h3
      · intro l env env' h
        cases l with
        | nil =>
            simp [cancelListF] at h
            exact ⟨[], by rw [h]; simp, by simp⟩
        | cons n rest =>
            rw [cancelListF] at h
            cases hcn : cancelNodeF f n env with
            | none => rw [hcn] at h; simp at h
            | some p =>
                obtain ⟨r1, env1⟩ := p
                rw [hcn] at h
                obtain ⟨δ1, hδ1, hok1⟩ := ih.1 n env r1 env1 hcn
                obtain ⟨δ2, hδ2, hok2⟩ := ih.2 rest env1 env' h
                refine ⟨δ2 ++ δ1, ?_, ?_⟩
                · rw [hδ2, hδ1, List.append_assoc]
                · intro e he
                  rcases List.mem_append.1 he with h3 | h3
                  · exact hok2 e h3
                  · exact hok1 e h3

/-- C2: a child cancelled by the engine always dispatches its error-side done
handler, which observes `Canceled`; the handler's return value is the child's
effective outcome (so returning `Success` makes the effective outcome
Success), the handler can only produce `Success` or `Error` (never a
`Canceled` outcome), every event the cancellation path emits shows an observed
`Canceled`, and the sibling-stop path of the engine dispatches exactly this
cancellation (mirroring the parallel stop-on-error test rows). -/
theorem C2_cancellation_dispatch :
    (∀ (fuel id rem : Nat) (res : DoneResult) (f : DoneWith → DoneResult) (env : Env),
        cancelNodeF (fuel + 1) (.rtask id rem res (some f)) env =
          some (f .cancel, (env.emit (.taskDone id .cancel)).addProgress 1))
  ∧ (∀ (fuel id rem : Nat) (res : DoneResult) (f : DoneWith → DoneResult) (env : Env),
        f DoneWith.cancel = DoneResult.success →
        (cancelNodeF (fuel + 1) (.rtask id rem res (some f)) env).map Prod.fst =
          some DoneResult.success)
  ∧ (∀ (fuel : Nat) (n : RNode) (env : Env) (r : DoneResult) (env' : Env),
        cancelNodeF fuel n env = some (r, env') →
        (r = DoneResult.success ∨ r = DoneResult.error) ∧
        ∃ δ : List Event, env'.rtrace = δ ++ env.rtrace ∧ ∀ e ∈ δ, cancelEventOk e = true)
  ∧ (∀ f : DoneWith → DoneResult,
        runTrace (siblingStopRecipe f) 20 =
          some [.taskSetup 1, .taskSetup 2, .taskDone 2 .error, .taskDone 1 .cancel,
                .groupDone 0 .error]) := by
  refine ⟨fun fuel id rem res f env => rfl, fun fuel id rem res f env hf => ?_,
    fun fuel n env r env' h => ?_, fun f => rfl⟩
  · simp [cancelNodeF, hf]
  · refine ⟨by cases r; exact Or.inl rfl; exact Or.inr rfl, ?_⟩
    exact (cancel_rtrace fuel).1 n env r env' h

/-- Closed instance of `C2_cancellation_dispatch`: its hypotheses are
discharged at a concrete cancelled task with a handler rewriting the cancel to
`Success`. -/
theorem C2_cancellation_dispatch_witness :
    (cancelNodeF 1 (.rtask 4 7 .error (some (fun _ => DoneResult.success))) Env.init).map
        Prod.fst = some DoneResult.success
  ∧ ((DoneResult.success = DoneResult.success ∨ DoneResult.success = DoneResult.error) ∧
      ∃ δ : List Event,
        ((Env.init.emit (.taskDone 4 .cancel)).addProgress 1).rtrace = δ ++ Env.init.rtrace ∧
          ∀ e ∈ δ, cancelEventOk e = true) := by
  constructor
  · exact C2_cancellation_dispatch.2.1 0 4 7 .error (fun _ => DoneResult.success) Env.init rfl
  · exact C2_cancellation_dispatch.2.2.1 1 (.rtask 4 7 .error (some (fun _ => DoneResult.success)))
      Env.init DoneResult.success ((Env.init.emit (.taskDone 4 .cancel)).addProgress 1) rfl

/-- C3: a group with workflow policy `FinishAllAndSuccess` that is cancelled
from outside while a child is still running does not finish with Success —
its running child and the group finish as cancelled (the group's done handler
observes `Canceled`), the outcome the parent propagates is Error, and more
generally the engine's cancellation of any running group without an
outcome-rewriting done handler yields an effective Error, for every policy. -/
theorem C3_outer_cancel_overrides_finishAllAndSuccess :
    (runTrace (outerCancelRecipe .finishAllAndSuccess) 20 =
        some [.taskSetup 1, .taskSetup 2, .taskDone 2 .error, .taskDone 1 .cancel,
              .groupDone 1 .cancel, .groupDone 2 .error])
  ∧ runOutcome (outerCancelRecipe .finishAllAndSuccess) 20 = some DoneResult.error
  ∧ (∀ p : WorkflowPolicy, runOutcome (outerCancelRecipe p) 20 = some DoneResult.error)
  ∧ (∀ (fuel : Nat) (g : GroupSpec) (sctx : Sctx) (own : List (Nat × Nat)) (acc : GroupAcc)
        (running : RNodeList) (pending : ItemList) (env : Env) (r : DoneResult) (env' : Env),
        g.onDone = none →
        cancelNodeF (fuel + 1) (.rgroup g sctx own acc running pending) env = some (r, env') →
        r = DoneResult.error) := by
  refine ⟨rfl, rfl, fun p => by cases p <;> rfl,
    fun fuel g sctx own acc running pending env r env' hd h => ?_⟩
  rw [cancelNodeF] at h
  cases hcl : cancelListF fuel running env with
  | none => rw [hcl] at h; simp at h
  | some env1 =>
      rw [hcl] at h
      simp only [Option.some.injEq] at h
      simp only [Option.some.injEq, Prod.mk.injEq, finishGroup] at h
      obtain ⟨hr, henv⟩ := h
      rw [← hr, finishGroupEff, hd]
      intro hx; cases hx

/-- Closed instance of `C3_outer_cancel_overrides_finishAllAndSuccess`: its
general conjunct is discharged on a concrete running group with policy
`FinishAllAndSuccess` holding one running task. -/
theorem C3_outer_cancel_witness :
    ∃ r : DoneResult, ∃ env' : Env,
      cancelNodeF 3 (.rgroup { policy := .finishAllAndSuccess } [] [] GroupAcc.init
          (.cons (.rtask 1 5 .success none) .nil) .nil) Env.init = some (r, env') ∧
        r = DoneResult.error := by
  refine ⟨DoneResult.error, ((Env.init.addProgress 1).addProgress 0), rfl, ?_⟩
  exact C3_outer_cancel_overrides_finishAllAndSuccess.2.2.2 2
    { policy := .finishAllAndSuccess } [] [] GroupAcc.init
    (.cons (.rtask 1 5 .success none) .nil) .nil Env.init DoneResult.error
    ((Env.init.addProgress 1).addProgress 0) rfl rfl

theorem rCountL_append : ∀ a b : RNodeList, rCountL (a.append b) = rCountL a + rCountL b
  | .nil, b => by simp [RNodeList.append, rCountL]
  | .cons n rest, b => by
      simp [RNodeList.append, rCountL, rCountL_append rest b]; omega

theorem destroyOwn_progress (cb : List Nat) :
    ∀ (l : List (Nat × Nat)) (env : Env), (destroyOwn cb l env).progress = env.progress := by
  intro l
  induction l with
  | nil => intro env; rfl
  | cons p rest ih =>
      intro env
      obtain ⟨k, i⟩ := p
      by_cases hc : cb.contains k
      · rw [destroyOwn, if_pos hc, ih]; rfl
      · rw [destroyOwn, if_neg hc, ih]; rfl

theorem createStorages_progress (cb : List Nat) :
    ∀ (ks : List Nat) (env : Env), ((createStorages cb ks env).2).progress = env.progress := by
  intro ks
  induction ks with
  | nil => intro env; rfl
  | cons k rest ih =>
      intro env
      by_cases hc : cb.contains k
      · simp only [createStorages, if_pos hc]
        rw [ih]; rfl
      · simp only [createStorages, if_neg hc]
        rw [ih]; rfl

theorem finishGroupEnv_progress (g : GroupSpec) (sctx : Sctx) (own : List (Nat × Nat))
    (w : DoneWith) (env : Env) :
    (finishGroupEnv g sctx own w env).progress = env.progress := by
  simp only [finishGroupEnv]
  rw [destroyOwn_progress]
  cases hl : g.logDone <;> cases hr : g.readsKey <;> simp [hl, hr, Env.emit]

theorem emit_progress (env : Env) (e : Event) : (env.emit e).progress = env.progress := rfl

theorem addProgress_progress (env : Env) (n : Nat) :
    (env.addProgress n).progress = env.progress + n := rfl

theorem declareBarriers_progress (env : Env) (ds : List (Nat × Nat)) :
    (env.declareBarriers ds).progress = env.progress := rfl

theorem bumpBarrier_progress (env : Env) (bid : Nat) :
    (env.bumpBarrier bid).progress = env.progress := rfl

theorem progress_balance : ∀ fuel : Nat,
    (∀ (sctx : Sctx) (item : Item) (env : Env) (res : StartRes) (env' : Env),
        startItemF fuel sctx item env = some (res, env') →
        env'.progress + resCount res = env.progress + leafCountI item)
  ∧ (∀ (g : GroupSpec) (sctx : Sctx) (own : List (Nat × Nat)) (acc : GroupAcc)
        (running : RNodeList) (pending : ItemList) (env : Env) (res : StartRes) (env' : Env),
        startListF fuel g sctx own acc running pending env = some (res, env') →
        env'.progress + resCount res = env.progress + rCountL running + leafCountL pending)
  ∧ (∀ (n : RNode) (env : Env) (r : DoneResult) (env' : Env),
        cancelNodeF fuel n env = some (r, env') →
        env'.progress = env.progress + rCountN n)
  ∧ (∀ (l : RNodeList) (env env' : Env),
        cancelListF fuel l env = some env' →
        env'.progress = env.progress + rCountL l)
  ∧ (∀ (n : RNode) (env : Env) (res : StartRes) (env' : Env),
        settleNodeF fuel n env = some (res, env') →
        env'.progress + resCount res = env.progress + rCountN n)
  ∧ (∀ (g : GroupSpec) (sctx : Sctx) (own : List (Nat × Nat)) (acc : GroupAcc)
        (processed toProcess : RNodeList) (pending : ItemList) (env : Env) (res : StartRes)
        (env' : Env),
        settleListF fuel g sctx own acc processed toProcess pending env = some (res, env') →
        env'.progress + resCount res =
          env.progress + rCountL processed + rCountL toProcess + leafCountL pending) := by
  intro fuel
  induction fuel with
  | zero =>
      refine ⟨?_, ?_, ?_, ?_, ?_, ?_⟩ <;> intros <;>
        simp [startItemF, startListF, cancelNodeF, cancelListF, settleNodeF, settleListF] at *
  | succ f ih =>
      obtain ⟨ihS1, ihS2, ihC1, ihC2, ihT1, ihT2⟩ := ih
      refine ⟨?_, ?_, ?_, ?_, ?_, ?_⟩
      · -- startItemF
        intro sctx item env res env' h
        cases item with
        | task id tsetup dur result onDone =>
            rw [startItemF_task] at h
            cases tsetup <;> simp only [Option.some.injEq, Prod.mk.injEq] at h <;>
              obtain ⟨h1, h2⟩ := h <;> subst h1 <;> subst h2 <;>
              simp [resCount, rCountN, leafCountI, emit_progress, addProgress_progress]
        | sync id result =>
            rw [startItemF_sync] at h
            simp only [Option.some.injEq, Prod.mk.injEq] at h
            obtain ⟨h1, h2⟩ := h; subst h1; subst h2
            simp [resCount, leafCountI, emit_progress]
        | waitB bid =>
            rw [startItemF_waitB] at h
            by_cases hs : env.satisfied bid
            · rw [if_pos hs] at h
              simp only [Option.some.injEq, Prod.mk.injEq] at h
              obtain ⟨h1, h2⟩ := h; subst h1; subst h2
              simp [resCount, leafCountI, addProgress_progress]
            · rw [if_neg hs] at h
              simp only [Option.some.injEq, Prod.mk.injEq] at h
              obtain ⟨h1, h2⟩ := h; subst h1; subst h2
              simp [resCount, rCountN, leafCountI]
        | advanceB id dur bid =>
            rw [startItemF_advanceB] at h
            simp only [Option.some.injEq, Prod.mk.injEq] at h
            obtain ⟨h1, h2⟩ := h; subst h1; subst h2
            simp [resCount, rCountN, leafCountI, emit_progress]
        | timeoutT id dur hh =>
            rw [startItemF_timeoutT] at h
            simp only [Option.some.injEq, Prod.mk.injEq] at h
            obtain ⟨h1, h2⟩ := h; subst h1; subst h2
            simp [resCount, rCountN, leafCountI]
        | group g ch =>
            rw [startItemF_group] at h
            dsimp only at h
            have hprogS : (match g.logSetup with
                | some gid =>
                    ((createStorages g.cbKeys g.storages
                      (env.declareBarriers g.barrierDecls)).2).emit (.groupSetup gid)
                | none =>
                    (createStorages g.cbKeys g.storages
                      (env.declareBarriers g.barrierDecls)).2).progress = env.progress := by
              cases g.logSetup <;>
                simp [emit_progress, createStorages_progress, declareBarriers_progress]
            cases hsetup : g.setup with
            | continue' =>
                rw [hsetup] at h
                dsimp only at h
                have h2 := ihS2 _ _ _ _ _ _ _ _ _ h
                simp only [rCountL] at h2
                simp only [leafCountI]
                omega
            | stopWithSuccess =>
                rw [hsetup] at h
                dsimp only at h
                simp only [Option.some.injEq, Prod.mk.injEq] at h
                obtain ⟨h1, h2⟩ := h; subst h1; subst h2
                rw [finishGroupEnv_progress, addProgress_progress, hprogS]
                simp [resCount, leafCountI]
            | stopWithError =>
                rw [hsetup] at h
                dsimp only at h
                simp only [Option.some.injEq, Prod.mk.injEq] at h
                obtain ⟨h1, h2⟩ := h; subst h1; subst h2
                rw [finishGroupEnv_progress, addProgress_progress, hprogS]
                simp [resCount, leafCountI]
      · -- startListF
        intro g sctx own acc running pending env res env' h
        cases pending with
        | nil =>
            cases running with
            | nil =>
                rw [startListF_nil_nil] at h
                simp only [Option.some.injEq, Prod.mk.injEq] at h
                obtain ⟨h1, h2⟩ := h; subst h1; subst h2
                rw [finishGroupEnv_progress]
                simp [resCount, rCountL, leafCountL]
            | cons n rest =>
                rw [startListF_nil_cons] at h
                simp only [Option.some.injEq, Prod.mk.injEq] at h
                obtain ⟨h1, h2⟩ := h; subst h1; subst h2
                simp [resCount, rCountN, rCountL, leafCountL]
        | cons i rest =>
            rw [startListF_cons] at h
            by_cases hslot : slotsFree g.mode running.length
            · rw [if_pos hslot] at h
              cases hstart : startItemF f sctx i env with
              | none => rw [hstart] at h; simp at h
              | some p =>
                  obtain ⟨res1, env1⟩ := p
                  rw [hstart] at h
                  cases res1 with
                  | running n =>
                      dsimp only at h
                      have e1 := ihS1 sctx i env (.running n) env1 hstart
                      have e2 := ihS2 g sctx own acc (running.append (.cons n .nil)) rest env1
                        res env' h
                      rw [rCountL_append] at e2
                      simp only [resCount] at e1
                      simp only [rCountL] at e2
                      simp only [leafCountL]
                      omega
                  | done r =>
                      dsimp only at h
                      have e1 := ihS1 sctx i env (.done r) env1 hstart
                      simp only [resCount] at e1
                      by_cases hstop : stopsOn g.policy r
                      · rw [if_pos hstop] at h
                        cases hcl : cancelListF f running env1 with
                        | none => rw [hcl] at h; simp at h
                        | some env2 =>
                            rw [hcl] at h
                            simp only [Option.some.injEq, Prod.mk.injEq] at h
                            obtain ⟨h1, h2⟩ := h; subst h1; subst h2
                            have e2 := ihC2 running env1 env2 hcl
                            rw [finishGroupEnv_progress, addProgress_progress]
                            simp only [resCount, leafCountL]
                            omega
                      · rw [if_neg hstop] at h
                        have e2 := ihS2 g sctx own (acc.add r) running rest env1 res env' h
                        simp only [leafCountL]
                        omega
            · rw [if_neg hslot] at h
              simp only [Option.some.injEq, Prod.mk.injEq] at h
              obtain ⟨h1, h2⟩ := h; subst h1; subst h2
              simp only [resCount, rCountN]
              omega
      · -- cancelNodeF
        intro n env r env' h
        cases n with
        | rtask id rem result onDone =>
            rw [cancelNodeF_rtask] at h
            cases onDone <;> simp only [Option.some.injEq, Prod.mk.injEq] at h <;>
              obtain ⟨h1, h2⟩ := h <;> subst h2 <;>
              simp [rCountN, emit_progress, addProgress_progress]
        | rwait bid =>
            rw [cancelNodeF_rwait] at h
            simp only [Option.some.injEq, Prod.mk.injEq] at h
            obtain ⟨h1, h2⟩ := h; subst h2
            simp [rCountN, addProgress_progress]
        | radvance id rem bid =>
            rw [cancelNodeF_radvance] at h
            simp only [Option.some.injEq, Prod.mk.injEq] at h
            obtain ⟨h1, h2⟩ := h; subst h2
            simp [rCountN, addProgress_progress]
        | rtimeout id rem hh =>
            rw [cancelNodeF_rtimeout] at h
            simp only [Option.some.injEq, Prod.mk.injEq] at h
            obtain ⟨h1, h2⟩ := h; subst h2
            simp [rCountN, addProgress_progress]
        | rgroup g sctx own acc running pending =>
            rw [cancelNodeF_rgroup] at h
            cases hcl : cancelListF f running env with
            | none => rw [hcl] at h; simp at h
            | some env1 =>
                rw [hcl] at h
                simp only [Option.some.injEq, Prod.mk.injEq] at h
                obtain ⟨h1, h2⟩ := h; subst h2
                have e1 := ihC2 running env env1 hcl
                rw [finishGroupEnv_progress, addProgress_progress]
                simp only [rCountN]
                omega
      · -- cancelListF
        intro l env env' h
        cases l with
        | nil =>
            rw [cancelListF_nil] at h
            simp only [Option.some.injEq] at h
            subst h
            simp [rCountL]
        | cons n rest =>
            rw [cancelListF_cons] at h
            cases hcn : cancelNodeF f n env with
            | none => rw [hcn] at h; simp at h
            | some p =>
                obtain ⟨r1, env1⟩ := p
                rw [hcn] at h
                dsimp only at h
                have e1 := ihC1 n env r1 env1 hcn
                have e2 := ihC2 rest env1 env' h
                simp only [rCountL]
                omega
      · -- settleNodeF
        intro n env res env' h
        cases n with
        | rtask id rem result onDone =>
            rw [settleNodeF_rtask] at h
            by_cases hrem : (rem == 0) = true
            · rw [if_pos hrem] at h
              cases onDone <;> simp only [Option.some.injEq, Prod.mk.injEq] at h <;>
                obtain ⟨h1, h2⟩ := h <;> subst h1 <;> subst h2 <;>
                simp [resCount, rCountN, emit_progress, addProgress_progress]
            · rw [if_neg hrem] at h
              simp only [Option.some.injEq, Prod.mk.injEq] at h
              obtain ⟨h1, h2⟩ := h; subst h1; subst h2
              simp [resCount, rCountN]
        | rwait bid =>
            rw [settleNodeF_rwait] at h
            by_cases hs : env.satisfied bid
            · rw [if_pos hs] at h
              simp only [Option.some.injEq, Prod.mk.injEq] at h
              obtain ⟨h1, h2⟩ := h; subst h1; subst h2
              simp [resCount, rCountN, addProgress_progress]
            · rw [if_neg hs] at h
              simp only [Option.some.injEq, Prod.mk.injEq] at h
              obtain ⟨h1, h2⟩ := h; subst h1; subst h2
              simp [resCount, rCountN]
        | radvance id rem bid =>
            rw [settleNodeF_radvance] at h
            by_cases hrem : (rem == 0) = true
            · rw [if_pos hrem] at h
              simp only [Option.some.injEq, Prod.mk.injEq] at h
              obtain ⟨h1, h2⟩ := h; subst h1; subst h2
              simp [resCount, rCountN, emit_progress, addProgress_progress, bumpBarrier_progress]
            · rw [if_neg hrem] at h
              simp only [Option.some.injEq, Prod.mk.injEq] at h
              obtain ⟨h1, h2⟩ := h; subst h1; subst h2
              simp [resCount, rCountN]
        | rtimeout id rem hh =>
            rw [settleNodeF_rtimeout] at h
            by_cases hrem : (rem == 0) = true
            · rw [if_pos hrem] at h
              simp only [Option.some.injEq, Prod.mk.injEq] at h
              obtain ⟨h1, h2⟩ := h; subst h1; subst h2
              cases hh <;> simp [resCount, rCountN, emit_progress, addProgress_progress]
            · rw [if_neg hrem] at h
              simp only [Option.some.injEq, Prod.mk.injEq] at h
              obtain ⟨h1, h2⟩ := h; subst h1; subst h2
              simp [resCount, rCountN]
        | rgroup g sctx own acc running pending =>
            rw [settleNodeF_rgroup] at h
            have e := ihT2 g sctx own acc .nil running pending env res env' h
            simp only [rCountL, rCountN] at e ⊢
            omega
      · -- settleListF
        intro g sctx own acc processed toProcess pending env res env' h
        cases toProcess with
        | nil =>
            rw [settleListF_nil] at h
            have e := ihS2 g sctx own acc processed pending env res env' h
            simp only [rCountL]
            omega
        | cons n rest =>
            rw [settleListF_cons] at h
            cases hsn : settleNodeF f n env with
            | none => rw [hsn] at h; simp at h
            | some p =>
                obtain ⟨res1, env1⟩ := p
                rw [hsn] at h
                cases res1 with
                | running n' =>
                    dsimp only at h
                    have e1 := ihT1 n env (.running n') env1 hsn
                    have e2 := ihT2 g sctx own acc (processed.append (.cons n' .nil)) rest
                      pending env1 res env' h
                    rw [rCountL_append] at e2
                    simp only [resCount] at e1
                    simp only [rCountL] at e2
                    simp only [rCountL]
                    omega
                | done r =>
                    dsimp only at h
                    have e1 := ihT1 n env (.done r) env1 hsn
                    simp only [resCount] at e1
                    by_cases hstop : stopsOn g.policy r
                    · rw [if_pos hstop] at h
                      cases hcl : cancelListF f processed env1 with
                      | none => rw [hcl] at h; simp at h
                      | some env2 =>
                          rw [hcl] at h
                          dsimp only at h
                          cases hcl2 : cancelListF f rest env2 with
                          | none => rw [hcl2] at h; simp at h
                          | some env3 =>
                              rw [hcl2] at h
                              simp only [Option.some.injEq, Prod.mk.injEq] at h
                              obtain ⟨h1, h2⟩ := h; subst h1; subst h2
                              have e2 := ihC2 processed env1 env2 hcl
                              have e3 := ihC2 rest env2 env3 hcl2
                              rw [finishGroupEnv_progress, addProgress_progress]
                              simp only [resCount, rCountL]
                              omega
                    · rw [if_neg hstop] at h
                      have e2 := ihT2 g sctx own (acc.add r) processed rest pending env1
                        res env' h
                      simp only [rCountL]
                      omega

mutual
theorem rCount_shiftN (d : Nat) : ∀ n : RNode, rCountN (shiftN d n) = rCountN n
  | .rtask _ _ _ _ => rfl
  | .rwait _ => rfl
  | .radvance _ _ _ => rfl
  | .rtimeout _ _ _ => rfl
  | .rgroup g sctx own acc running pending => by
      simp [shiftN, rCountN, rCount_shiftL d running]

theorem rCount_shiftL (d : Nat) : ∀ l : RNodeList, rCountL (shiftL d l) = rCountL l
  | .nil => rfl
  | .cons n rest => by
      simp [shiftL, rCountL, rCount_shiftN d n, rCount_shiftL d rest]
end

theorem loop_progress : ∀ (fuel : Nat) (n : RNode) (env : Env) (r : DoneResult) (env' : Env),
    loopF fuel n env = some (r, env') → env'.progress = env.progress + rCountN n := by
  intro fuel
  induction fuel with
  | zero => intro n env r env' h; simp [loopF] at h
  | succ f ih =>
      intro n env r env' h
      rw [loopF_succ] at h
      cases hsn : settleNodeF (f + 1) n env with
      | none => rw [hsn] at h; simp at h
      | some p =>
          obtain ⟨res1, env1⟩ := p
          rw [hsn] at h
          cases res1 with
          | done r1 =>
              dsimp only at h
              simp only [Option.some.injEq, Prod.mk.injEq] at h
              obtain ⟨h1, h2⟩ := h; subst h2
              have e := (progress_balance (f + 1)).2.2.2.2.1 n env (.done r1) env1 hsn
              simp only [resCount] at e
              omega
          | running n' =>
              dsimp only at h
              have e := (progress_balance (f + 1)).2.2.2.2.1 n env (.running n') env1 hsn
              simp only [resCount] at e
              by_cases hp : env.progress < env1.progress
              · rw [if_pos hp] at h
                have e2 := ih n' env1 r env' h
                omega
              · rw [if_neg hp] at h
                cases hmr : minRemN n' with
                | none => rw [hmr] at h; simp at h
                | some d =>
                    rw [hmr] at h
                    dsimp only at h
                    have e2 := ih (shiftN d n') env1 r env' h
                    rw [rCount_shiftN] at e2
                    omega

/-- C4: when a run of any finite recipe reaches its terminal done event, the
progress value equals the progress maximum — the number of asynchronous
leaves counted at compile time (`taskCount`), with `Sync` leaves contributing
zero to the count. -/
theorem C4_progress_completeness :
    (∀ (item : Item) (fuel : Nat) (r : DoneResult) (env' : Env),
        runRecipe item fuel = some (r, env') → env'.progress = taskCount item)
  ∧ (∀ (id : Nat) (r : DoneResult), taskCount (.sync id r) = 0)
  ∧ taskCount (.group {} (.cons (.sync 1 .success)
      (.cons (mkTask 2 0 .success) (.cons (.sync 3 .error) .nil)))) = 1 := by
  refine ⟨fun item fuel r env' h => ?_, fun id r => rfl, rfl⟩
  rw [runRecipe] at h
  cases hs : startItemF fuel [] item Env.init with
  | none => rw [hs] at h; simp at h
  | some p =>
      obtain ⟨res1, env1⟩ := p
      rw [hs] at h
      cases res1 with
      | done r1 =>
          dsimp only at h
          simp only [Option.some.injEq, Prod.mk.injEq] at h
          obtain ⟨h1, h2⟩ := h; subst h2
          have e := (progress_balance fuel).1 [] item Env.init (.done r1) env1 hs
          simp only [resCount] at e
          simpa [taskCount, Env.init] using e
      | running n =>
          dsimp only at h
          have e := (progress_balance fuel).1 [] item Env.init (.running n) env1 hs
          simp only [resCount] at e
          have e2 := loop_progress fuel n env1 r env' h
          simp only [taskCount]
          have : Env.init.progress = 0 := rfl
          omega

/-- Closed instance of `C4_progress_completeness`: its hypothesis is
discharged on a concrete run of a one-task group, whose final progress value
is 1 — the recipe's `taskCount`. -/
theorem C4_progress_completeness_witness :
    ({ barriers := [], nextInst := 0, progress := 1,
       rtrace := [.taskDone 1 .success, .taskSetup 1] } : Env).progress =
      taskCount (.group {} (.cons (mkTask 1 0 .success) .nil)) :=
  C4_progress_completeness.1 (.group {} (.cons (mkTask 1 0 .success) .nil)) 10
    DoneResult.success
    { barriers := [], nextInst := 0, progress := 1,
      rtrace := [.taskDone 1 .success, .taskSetup 1] } rfl

theorem liveCountL_append : ∀ a b : RNodeList,
    liveCountL (a.append b) = liveCountL a + liveCountL b
  | .nil, b => by simp [RNodeList.append, liveCountL]
  | .cons n rest, b => by
      simp [RNodeList.append, liveCountL, liveCountL_append rest b]; omega

theorem destroyOwn_createCount (cb : List Nat) :
    ∀ (l : List (Nat × Nat)) (env : Env),
      createCount (destroyOwn cb l env).rtrace = createCount env.rtrace := by
  intro l
  induction l with
  | nil => intro env; rfl
  | cons p rest ih =>
      intro env
      obtain ⟨k, i⟩ := p
      by_cases hc : cb.contains k
      · rw [destroyOwn, if_pos hc, ih]
        simp [Env.emit, createCount, isCreate]
      · rw [destroyOwn, if_neg hc, ih]
        simp [Env.emit, createCount, isCreate]

theorem destroyOwn_destroyCount (cb : List Nat) :
    ∀ (l : List (Nat × Nat)) (env : Env),
      destroyCount (destroyOwn cb l env).rtrace = destroyCount env.rtrace + l.length := by
  intro l
  induction l with
  | nil => intro env; rfl
  | cons p rest ih =>
      intro env
      obtain ⟨k, i⟩ := p
      by_cases hc : cb.contains k
      · rw [destroyOwn, if_pos hc, ih]
        simp [Env.emit, destroyCount, isDestroy]
        omega
      · rw [destroyOwn, if_neg hc, ih]
        simp [Env.emit, destroyCount, isDestroy]
        omega

theorem createStorages_createCount (cb : List Nat) :
    ∀ (ks : List Nat) (env : Env),
      createCount ((createStorages cb ks env).2).rtrace
        = createCount env.rtrace + ks.length := by
  intro ks
  induction ks with
  | nil => intro env; rfl
  | cons k rest ih =>
      intro env
      by_cases hc : cb.contains k
      · simp only [createStorages, if_pos hc]
        rw [ih]
        simp [Env.emit, createCount, isCreate]
        omega
      · simp only [createStorages, if_neg hc]
        rw [ih]
        simp [Env.emit, createCount, isCreate]
        omega

theorem createStorages_destroyCount (cb : List Nat) :
    ∀ (ks : List Nat) (env : Env),
      destroyCount ((createStorages cb ks env).2).rtrace = destroyCount env.rtrace := by
  intro ks
  induction ks with
  | nil => intro env; rfl
  | cons k rest ih =>
      intro env
      by_cases hc : cb.contains k
      · simp only [createStorages, if_pos hc]
        rw [ih]
        simp [Env.emit, destroyCount, isDestroy]
      · simp only [createStorages, if_neg hc]
        rw [ih]
        simp [Env.emit, destroyCount, isDestroy]

theorem createStorages_length (cb : List Nat) :
    ∀ (ks : List Nat) (env : Env), ((createStorages cb ks env).1).length = ks.length := by
  intro ks
  induction ks with
  | nil => intro env; rfl
  | cons k rest ih =>
      intro env
      by_cases hc : cb.contains k
      · simp only [createStorages, if_pos hc]
        simp [List.length_cons, ih]
      · simp only [createStorages, if_neg hc]
        simp [List.length_cons, ih]

theorem finishGroupEnv_createCount (g : GroupSpec) (sctx : Sctx) (own : List (Nat × Nat))
    (w : DoneWith) (env : Env) :
    createCount (finishGroupEnv g sctx own w env).rtrace = createCount env.rtrace := by
  simp only [finishGroupEnv]
  rw [destroyOwn_createCount]
  cases g.logDone <;> cases g.readsKey <;>
    simp [Env.emit, createCount, isCreate]

theorem finishGroupEnv_destroyCount (g : GroupSpec) (sctx : Sctx) (own : List (Nat × Nat))
    (w : DoneWith) (env : Env) :
    destroyCount (finishGroupEnv g sctx own w env).rtrace
      = destroyCount env.rtrace + own.length := by
  simp only [finishGroupEnv]
  rw [destroyOwn_destroyCount]
  rw [List.length_reverse]
  cases g.logDone <;> cases g.readsKey <;>
    simp [Env.emit, destroyCount, isDestroy]

theorem storage_balance : ∀ fuel : Nat,
    (∀ (sctx : Sctx) (item : Item) (env : Env) (res : StartRes) (env' : Env),
        startItemF fuel sctx item env = some (res, env') →
        createCount env'.rtrace + destroyCount env.rtrace =
          createCount env.rtrace + destroyCount env'.rtrace + resLive res)
  ∧ (∀ (g : GroupSpec) (sctx : Sctx) (own : List (Nat × Nat)) (acc : GroupAcc)
        (running : RNodeList) (pending : ItemList) (env : Env) (res : StartRes) (env' : Env),
        startListF fuel g sctx own acc running pending env = some (res, env') →
        createCount env'.rtrace + destroyCount env.rtrace + liveCountL running + own.length =
          createCount env.rtrace + destroyCount env'.rtrace + resLive res)
  ∧ (∀ (n : RNode) (env : Env) (r : DoneResult) (env' : Env),
        cancelNodeF fuel n env = some (r, env') →
        createCount env'.rtrace + destroyCount env.rtrace + liveCountN n =
          createCount env.rtrace + destroyCount env'.rtrace)
  ∧ (∀ (l : RNodeList) (env env' : Env),
        cancelListF fuel l env = some env' →
        createCount env'.rtrace + destroyCount env.rtrace + liveCountL l =
          createCount env.rtrace + destroyCount env'.rtrace)
  ∧ (∀ (n : RNode) (env : Env) (res : StartRes) (env' : Env),
        settleNodeF fuel n env = some (res, env') →
        createCount env'.rtrace + destroyCount env.rtrace + liveCountN n =
          createCount env.rtrace + destroyCount env'.rtrace + resLive res)
  ∧ (∀ (g : GroupSpec) (sctx : Sctx) (own : List (Nat × Nat)) (acc : GroupAcc)
        (processed toProcess : RNodeList) (pending : ItemList) (env : Env) (res : StartRes)
        (env' : Env),
        settleListF fuel g sctx own acc processed toProcess pending env = some (res, env') →
        createCount env'.rtrace + destroyCount env.rtrace + liveCountL processed +
            liveCountL toProcess + own.length =
          createCount env.rtrace + destroyCount env'.rtrace + resLive res) := by
  intro fuel
  induction fuel with
  | zero =>
      refine ⟨?_, ?_, ?_, ?_, ?_, ?_⟩ <;> intros <;>
        simp [startItemF, startListF, cancelNodeF, cancelListF, settleNodeF, settleListF] at *
  | succ f ih =>
      obtain ⟨ihS1, ihS2, ihC1, ihC2, ihT1, ihT2⟩ := ih
      refine ⟨?_, ?_, ?_, ?_, ?_, ?_⟩
      · -- startItemF
        intro sctx item env res env' h
        cases item with
        | task id tsetup dur result onDone =>
            rw [startItemF_task] at h
            cases tsetup <;> simp only [Option.some.injEq, Prod.mk.injEq] at h <;>
              obtain ⟨h1, h2⟩ := h <;> subst h1 <;> subst h2 <;>
              simp [resLive, liveCountN, Env.emit, Env.addProgress, createCount, destroyCount,
                isCreate, isDestroy]
        | sync id result =>
            rw [startItemF_sync] at h
            simp only [Option.some.injEq, Prod.mk.injEq] at h
            obtain ⟨h1, h2⟩ := h; subst h1; subst h2
            simp [resLive, Env.emit, createCount, destroyCount, isCreate, isDestroy]
        | waitB bid =>
            rw [startItemF_waitB] at h
            by_cases hs : env.satisfied bid
            · rw [if_pos hs] at h
              simp only [Option.some.injEq, Prod.mk.injEq] at h
              obtain ⟨h1, h2⟩ := h; subst h1; subst h2
              simp [resLive, Env.addProgress]
            · rw [if_neg hs] at h
              simp only [Option.some.injEq, Prod.mk.injEq] at h
              obtain ⟨h1, h2⟩ := h; subst h1; subst h2
              simp [resLive, liveCountN]
        | advanceB id dur bid =>
            rw [startItemF_advanceB] at h
            simp only [Option.some.injEq, Prod.mk.injEq] at h
            obtain ⟨h1, h2⟩ := h; subst h1; subst h2
            simp [resLive, liveCountN, Env.emit, createCount, destroyCount, isCreate, isDestroy]
        | timeoutT id dur hh =>
            rw [startItemF_timeoutT] at h
            simp only [Option.some.injEq, Prod.mk.injEq] at h
            obtain ⟨h1, h2⟩ := h; subst h1; subst h2
            simp [resLive, liveCountN]
        | group g ch =>
            rw [startItemF_group] at h
            dsimp only at h
            have hC : createCount (match g.logSetup with
                | some gid =>
                    ((createStorages g.cbKeys g.storages
                      (env.declareBarriers g.barrierDecls)).2).emit (.groupSetup gid)
                | none =>
                    (createStorages g.cbKeys g.storages
                      (env.declareBarriers g.barrierDecls)).2).rtrace
                = createCount env.rtrace + g.storages.length := by
              cases g.logSetup <;>
                simp [Env.emit, createStorages_createCount, Env.declareBarriers,
                  createCount, isCreate]
            have hD : destroyCount (match g.logSetup with
                | some gid =>
                    ((createStorages g.cbKeys g.storages
                      (env.declareBarriers g.barrierDecls)).2).emit (.groupSetup gid)
                | none =>
                    (createStorages g.cbKeys g.storages
                      (env.declareBarriers g.barrierDecls)).2).rtrace
                = destroyCount env.rtrace := by
              cases g.logSetup <;>
                simp [Env.emit, createStorages_destroyCount, Env.declareBarriers,
                  destroyCount, isDestroy]
            have hLen : ((createStorages g.cbKeys g.storages
                (env.declareBarriers g.barrierDecls)).1).length = g.storages.length :=
              createStorages_length _ _ _
            cases hsetup : g.setup with
            | continue' =>
                rw [hsetup] at h
                dsimp only at h
                have h2 := ihS2 _ _ _ _ _ _ _ _ _ h
                simp only [liveCountL] at h2
                omega
            | stopWithSuccess =>
                rw [hsetup] at h
                dsimp only at h
                simp only [Option.some.injEq, Prod.mk.injEq] at h
                obtain ⟨h1, h2⟩ := h; subst h1; subst h2
                rw [finishGroupEnv_createCount, finishGroupEnv_destroyCount]
                have hr : destroyCount ((match g.logSetup with
                    | some gid =>
                        ((createStorages g.cbKeys g.storages
                          (env.declareBarriers g.barrierDecls)).2).emit (.groupSetup gid)
                    | none =>
                        (createStorages g.cbKeys g.storages
                          (env.declareBarriers g.barrierDecls)).2).addProgress
                      (leafCountL ch)).rtrace = destroyCount env.rtrace := hD
                have hrc : createCount ((match g.logSetup with
                    | some gid =>
                        ((createStorages g.cbKeys g.storages
                          (env.declareBarriers g.barrierDecls)).2).emit (.groupSetup gid)
                    | none =>
                        (createStorages g.cbKeys g.storages
                          (env.declareBarriers g.barrierDecls)).2).addProgress
                      (leafCountL ch)).rtrace = createCount env.rtrace + g.storages.length := hC
                simp only [resLive]
                omega
            | stopWithError =>
                rw [hsetup] at h
                dsimp only at h
                simp only [Option.some.injEq, Prod.mk.injEq] at h
                obtain ⟨h1, h2⟩ := h; subst h1; subst h2
                rw [finishGroupEnv_createCount, finishGroupEnv_destroyCount]
                have hr : destroyCount ((match g.logSetup with
                    | some gid =>
                        ((createStorages g.cbKeys g.storages
                          (env.declareBarriers g.barrierDecls)).2).emit (.groupSetup gid)
                    | none =>
                        (createStorages g.cbKeys g.storages
                          (env.declareBarriers g.barrierDecls)).2).addProgress
                      (leafCountL ch)).rtrace = destroyCount env.rtrace := hD
                have hrc : createCount ((match g.logSetup with
                    | some gid =>
                        ((createStorages g.cbKeys g.storages
                          (env.declareBarriers g.barrierDecls)).2).emit (.groupSetup gid)
                    | none =>
                        (createStorages g.cbKeys g.storages
                          (env.declareBarriers g.barrierDecls)).2).addProgress
                      (leafCountL ch)).rtrace = createCount env.rtrace + g.storages.length := hC
                simp only [resLive]
                omega
      · -- startListF
        intro g sctx own acc running pending env res env' h
        cases pending with
        | nil =>
            cases running with
            | nil =>
                rw [startListF_nil_nil] at h
                simp only [Option.some.injEq, Prod.mk.injEq] at h
                obtain ⟨h1, h2⟩ := h; subst h1; subst h2
                rw [finishGroupEnv_createCount, finishGroupEnv_destroyCount]
                simp [resLive, liveCountL]
                omega
            | cons n rest =>
                rw [startListF_nil_cons] at h
                simp only [Option.some.injEq, Prod.mk.injEq] at h
                obtain ⟨h1, h2⟩ := h; subst h1; subst h2
                simp only [resLive, liveCountN]
                omega
        | cons i rest =>
            rw [startListF_cons] at h
            by_cases hslot : slotsFree g.mode running.length
            · rw [if_pos hslot] at h
              cases hstart : startItemF f sctx i env with
              | none => rw [hstart] at h; simp at h
              | some p =>
                  obtain ⟨res1, env1⟩ := p
                  rw [hstart] at h
                  cases res1 with
                  | running n =>
                      dsimp only at h
                      have e1 := ihS1 sctx i env (.running n) env1 hstart
                      have e2 := ihS2 g sctx own acc (running.append (.cons n .nil)) rest env1
                        res env' h
                      rw [liveCountL_append] at e2
                      simp only [resLive] at e1
                      simp only [liveCountL] at e2
                      omega
                  | done r =>
                      dsimp only at h
                      have e1 := ihS1 sctx i env (.done r) env1 hstart
                      simp only [resLive] at e1
                      by_cases hstop : stopsOn g.policy r
                      · rw [if_pos hstop] at h
                        cases hcl : cancelListF f running env1 with
                        | none => rw [hcl] at h; simp at h
                        | some env2 =>
                            rw [hcl] at h
                            simp only [Option.some.injEq, Prod.mk.injEq] at h
                            obtain ⟨h1, h2⟩ := h; subst h1; subst h2
                            have e2 := ihC2 running env1 env2 hcl
                            rw [finishGroupEnv_createCount, finishGroupEnv_destroyCount]
                            simp only [resLive]
                            have ha : createCount (env2.addProgress (leafCountL rest)).rtrace
                                = createCount env2.rtrace := rfl
                            have hb : destroyCount (env2.addProgress (leafCountL rest)).rtrace
                                = destroyCount env2.rtrace := rfl
                            omega
                      · rw [if_neg hstop] at h
                        have e2 := ihS2 g sctx own (acc.add r) running rest env1 res env' h
                        omega
            · rw [if_neg hslot] at h
              simp only [Option.some.injEq, Prod.mk.injEq] at h
              obtain ⟨h1, h2⟩ := h; subst h1; subst h2
              simp only [resLive, liveCountN]
              omega
      · -- cancelNodeF
        intro n env r env' h
        cases n with
        | rtask id rem result onDone =>
            rw [cancelNodeF_rtask] at h
            cases onDone <;> simp only [Option.some.injEq, Prod.mk.injEq] at h <;>
              obtain ⟨h1, h2⟩ := h <;> subst h2 <;>
              simp [liveCountN, Env.emit, Env.addProgress, createCount, destroyCount,
                isCreate, isDestroy]
        | rwait bid =>
            rw [cancelNodeF_rwait] at h
            simp only [Option.some.injEq, Prod.mk.injEq] at h
            obtain ⟨h1, h2⟩ := h; subst h2
            simp [liveCountN, Env.addProgress]
        | radvance id rem bid =>
            rw [cancelNodeF_radvance] at h
            simp only [Option.some.injEq, Prod.mk.injEq] at h
            obtain ⟨h1, h2⟩ := h; subst h2
            simp [liveCountN, Env.addProgress]
        | rtimeout id rem hh =>
            rw [cancelNodeF_rtimeout] at h
            simp only [Option.some.injEq, Prod.mk.injEq] at h
            obtain ⟨h1, h2⟩ := h; subst h2
            simp [liveCountN, Env.addProgress]
        | rgroup g sctx own acc running pending =>
            rw [cancelNodeF_rgroup] at h
            cases hcl : cancelListF f running env with
            | none => rw [hcl] at h; simp at h
            | some env1 =>
                rw [hcl] at h
                simp only [Option.some.injEq, Prod.mk.injEq] at h
                obtain ⟨h1, h2⟩ := h; subst h2
                have e1 := ihC2 running env env1 hcl
                rw [finishGroupEnv_createCount, finishGroupEnv_destroyCount]
                simp only [liveCountN]
                have ha : createCount (env1.addProgress (leafCountL pending)).rtrace
                    = createCount env1.rtrace := rfl
                have hb : destroyCount (env1.addProgress (leafCountL pending)).rtrace
                    = destroyCount env1.rtrace := rfl
                omega
      · -- cancelListF
        intro l env env' h
        cases l with
        | nil =>
            rw [cancelListF_nil] at h
            simp only [Option.some.injEq] at h
            subst h
            simp [liveCountL]
        | cons n rest =>
            rw [cancelListF_cons] at h
            cases hcn : cancelNodeF f n env with
            | none => rw [hcn] at h; simp at h
            | some p =>
                obtain ⟨r1, env1⟩ := p
                rw [hcn] at h
                dsimp only at h
                have e1 := ihC1 n env r1 env1 hcn
                have e2 := ihC2 rest env1 env' h
                simp only [liveCountL]
                omega
      · -- settleNodeF
        intro n env res env' h
        cases n with
        | rtask id rem result onDone =>
            rw [settleNodeF_rtask] at h
            by_cases hrem : (rem == 0) = true
            · rw [if_pos hrem] at h
              cases onDone <;> simp only [Option.some.injEq, Prod.mk.injEq] at h <;>
                obtain ⟨h1, h2⟩ := h <;> subst h1 <;> subst h2 <;>
                simp [resLive, liveCountN, Env.emit, Env.addProgress, createCount,
                  destroyCount, isCreate, isDestroy]
            · rw [if_neg hrem] at h
              simp only [Option.some.injEq, Prod.mk.injEq] at h
              obtain ⟨h1, h2⟩ := h; subst h1; subst h2
              simp [resLive, liveCountN]
        | rwait bid =>
            rw [settleNodeF_rwait] at h
            by_cases hs : env.satisfied bid
            · rw [if_pos hs] at h
              simp only [Option.some.injEq, Prod.mk.injEq] at h
              obtain ⟨h1, h2⟩ := h; subst h1; subst h2
              simp [resLive, liveCountN, Env.addProgress]
            · rw [if_neg hs] at h
              simp only [Option.some.injEq, Prod.mk.injEq] at h
              obtain ⟨h1, h2⟩ := h; subst h1; subst h2
              simp [resLive, liveCountN]
        | radvance id rem bid =>
            rw [settleNodeF_radvance] at h
            by_cases hrem : (rem == 0) = true
            · rw [if_pos hrem] at h
              simp only [Option.some.injEq, Prod.mk.injEq] at h
              obtain ⟨h1, h2⟩ := h; subst h1; subst h2
              simp [resLive, liveCountN, Env.emit, Env.addProgress, Env.bumpBarrier,
                createCount, destroyCount, isCreate, isDestroy]
            · rw [if_neg hrem] at h
              simp only [Option.some.injEq, Prod.mk.injEq] at h
              obtain ⟨h1, h2⟩ := h; subst h1; subst h2
              simp [resLive, liveCountN]
        | rtimeout id rem hh =>
            rw [settleNodeF_rtimeout] at h
            by_cases hrem : (rem == 0) = true
            · rw [if_pos hrem] at h
              simp only [Option.some.injEq, Prod.mk.injEq] at h
              obtain ⟨h1, h2⟩ := h; subst h1; subst h2
              cases hh <;>
                simp [resLive, liveCountN, Env.emit, Env.addProgress, createCount,
                  destroyCount, isCreate, isDestroy]
            · rw [if_neg hrem] at h
              simp only [Option.some.injEq, Prod.mk.injEq] at h
              obtain ⟨h1, h2⟩ := h; subst h1; subst h2
              simp [resLive, liveCountN]
        | rgroup g sctx own acc running pending =>
            rw [settleNodeF_rgroup] at h
            have e := ihT2 g sctx own acc .nil running pending env res env' h
            simp only [liveCountL, liveCountN] at e ⊢
            omega
      · -- settleListF
        intro g sctx own acc processed toProcess pending env res env' h
        cases toProcess with
        | nil =>
            rw [settleListF_nil] at h
            have e := ihS2 g sctx own acc processed pending env res env' h
            simp only [liveCountL]
            omega
        | cons n rest =>
            rw [settleListF_cons] at h
            cases hsn : settleNodeF f n env with
            | none => rw [hsn] at h; simp at h
            | some p =>
                obtain ⟨res1, env1⟩ := p
                rw [hsn] at h
                cases res1 with
                | running n' =>
                    dsimp only at h
                    have e1 := ihT1 n env (.running n') env1 hsn
                    have e2 := ihT2 g sctx own acc (processed.append (.cons n' .nil)) rest
                      pending env1 res env' h
                    rw [liveCountL_append] at e2
                    simp only [resLive] at e1
                    simp only [liveCountL] at e2
                    simp only [liveCountL]
                    omega
                | done r =>
                    dsimp only at h
                    have e1 := ihT1 n env (.done r) env1 hsn
                    simp only [resLive] at e1
                    by_cases hstop : stopsOn g.policy r
                    · rw [if_pos hstop] at h
                      cases hcl : cancelListF f processed env1 with
                      | none => rw [hcl] at h; simp at h
                      | some env2 =>
                          rw [hcl] at h
                          dsimp only at h
                          cases hcl2 : cancelListF f rest env2 with
                          | none => rw [hcl2] at h; simp at h
                          | some env3 =>
                              rw [hcl2] at h
                              simp only [Option.some.injEq, Prod.mk.injEq] at h
                              obtain ⟨h1, h2⟩ := h; subst h1; subst h2
                              have e2 := ihC2 processed env1 env2 hcl
                              have e3 := ihC2 rest env2 env3 hcl2
                              rw [finishGroupEnv_createCount, finishGroupEnv_destroyCount]
                              simp only [resLive, liveCountL]
                              have ha : createCount
                                  (env3.addProgress (leafCountL pending)).rtrace
                                  = createCount env3.rtrace := rfl
                              have hb : destroyCount
                                  (env3.addProgress (leafCountL pending)).rtrace
                                  = destroyCount env3.rtrace := rfl
                              omega
                    · rw [if_neg hstop] at h
                      have e2 := ihT2 g sctx own (acc.add r) processed rest pending env1
                        res env' h
                      simp only [liveCountL]
                      omega

theorem destroyBare_counts : ∀ (l : List (Nat × Nat)) (env : Env),
    createCount (destroyBare l env).rtrace = createCount env.rtrace ∧
    destroyCount (destroyBare l env).rtrace = destroyCount env.rtrace + l.length ∧
    doneCbCount (destroyBare l env).rtrace = doneCbCount env.rtrace := by
  intro l
  induction l with
  | nil => intro env; exact ⟨rfl, rfl, rfl⟩
  | cons p rest ih =>
      intro env
      obtain ⟨k, i⟩ := p
      obtain ⟨h1, h2, h3⟩ := ih (env.emit (.storageDestroy k i))
      rw [destroyBare]
      refine ⟨?_, ?_, ?_⟩
      · rw [h1]; simp [Env.emit, createCount, isCreate]
      · rw [h2]; simp [Env.emit, destroyCount, isDestroy]; omega
      · rw [h3]; simp [Env.emit, doneCbCount, isDoneCb]

mutual
theorem destroyN_counts : ∀ (n : RNode) (env : Env),
    createCount (destroyN n env).rtrace = createCount env.rtrace ∧
    destroyCount (destroyN n env).rtrace = destroyCount env.rtrace + liveCountN n ∧
    doneCbCount (destroyN n env).rtrace = doneCbCount env.rtrace
  | .rtask _ _ _ _, env => by simp [destroyN, liveCountN]
  | .rwait _, env => by simp [destroyN, liveCountN]
  | .radvance _ _ _, env => by simp [destroyN, liveCountN]
  | .rtimeout _ _ _, env => by simp [destroyN, liveCountN]
  | .rgroup g sctx own acc running pending, env => by
      obtain ⟨h1, h2, h3⟩ := destroyL_counts running env
      obtain ⟨h4, h5, h6⟩ := destroyBare_counts own.reverse (destroyL running env)
      rw [destroyN]
      refine ⟨?_, ?_, ?_⟩
      · rw [h4, h1]
      · rw [h5, h2, List.length_reverse]
        simp [liveCountN]
        omega
      · rw [h6, h3]

theorem destroyL_counts : ∀ (l : RNodeList) (env : Env),
    createCount (destroyL l env).rtrace = createCount env.rtrace ∧
    destroyCount (destroyL l env).rtrace = destroyCount env.rtrace + liveCountL l ∧
    doneCbCount (destroyL l env).rtrace = doneCbCount env.rtrace
  | .nil, env => by simp [destroyL, liveCountL]
  | .cons n rest, env => by
      obtain ⟨h1, h2, h3⟩ := destroyN_counts n env
      obtain ⟨h4, h5, h6⟩ := destroyL_counts rest (destroyN n env)
      rw [destroyL]
      refine ⟨?_, ?_, ?_⟩
      · rw [h4, h1]
      · rw [h5, h2]
        simp [liveCountL]
        omega
      · rw [h6, h3]
end

/-- C9: when a running controller is destroyed before the tree reaches a
terminal outcome, the storage-done callback is not invoked (the destructor
walk adds no storage-done callback events), the storage-setup callback had
already run when the tree started, and every storage instance created for the
run is nevertheless destroyed — the number of destroyed instances equals the
number of created ones, so the live instance count returns to zero. -/
theorem C9_destructor_storage_lifecycle :
    (∀ (item : Item) (fuel : Nat) (n : RNode) (env : Env),
        startItemF fuel [] item Env.init = some (.running n, env) →
        createCount (destroyN n env).rtrace = destroyCount (destroyN n env).rtrace ∧
        doneCbCount (destroyN n env).rtrace = doneCbCount env.rtrace)
  ∧ ((startAndDestroy destructorRecipe 10).map (fun env => env.rtrace.reverse) =
      some [.storageCreate 0 0, .storageSetupCb 0 0, .taskSetup 1, .storageDestroy 0 0])
  ∧ ((startAndDestroy destructorRecipe 10).map (fun env =>
      (createCount env.rtrace, destroyCount env.rtrace, doneCbCount env.rtrace)) =
      some (1, 1, 0)) := by
  refine ⟨fun item fuel n env h => ?_, rfl, rfl⟩
  have e := (storage_balance fuel).1 [] item Env.init (.running n) env h
  simp only [resLive] at e
  obtain ⟨h1, h2, h3⟩ := destroyN_counts n env
  have hz : createCount Env.init.rtrace = 0 := rfl
  have hz2 : destroyCount Env.init.rtrace = 0 := rfl
  exact ⟨by omega, h3⟩

/-- Closed instance of `C9_destructor_storage_lifecycle`: its hypothesis is
discharged on a concrete start of the `storageDestructor` mirror recipe. -/
theorem C9_destructor_storage_lifecycle_witness :
    createCount (destroyN
        (.rgroup { storages := [0], cbKeys := [0] } [(0, 0)] [(0, 0)] GroupAcc.init
          (.cons (.rtask 1 1000 .success none) .nil) .nil)
        { barriers := [], nextInst := 1, progress := 0,
          rtrace := [.taskSetup 1, .storageSetupCb 0 0, .storageCreate 0 0] }).rtrace =
      destroyCount (destroyN
        (.rgroup { storages := [0], cbKeys := [0] } [(0, 0)] [(0, 0)] GroupAcc.init
          (.cons (.rtask 1 1000 .success none) .nil) .nil)
        { barriers := [], nextInst := 1, progress := 0,
          rtrace := [.taskSetup 1, .storageSetupCb 0 0, .storageCreate 0 0] }).rtrace :=
  (C9_destructor_storage_lifecycle.1 destructorRecipe 10
    (.rgroup { storages := [0], cbKeys := [0] } [(0, 0)] [(0, 0)] GroupAcc.init
      (.cons (.rtask 1 1000 .success none) .nil) .nil)
    { barriers := [], nextInst := 1, progress := 0,
      rtrace := [.taskSetup 1, .storageSetupCb 0 0, .storageCreate 0 0] } rfl).1

theorem startItemF_nest_step (f n : Nat) (sctx : Sctx) (env : Env) :
    startItemF (f + 2) sctx (nest (n + 1)) env =
      (match startItemF f ((5, env.nextInst) :: sctx) (nest n)
          (({ env with nextInst := env.nextInst + 1 } : Env).emit
            (.storageCreate 5 env.nextInst)) with
      | none => none
      | some (.running nd, envX) =>
          startListF f { storages := [5], logDone := some (n + 1), readsKey := some 5 }
            ((5, env.nextInst) :: sctx) [(5, env.nextInst)] GroupAcc.init
            (RNodeList.nil.append (.cons nd .nil)) .nil envX
      | some (.done r, envX) =>
          if stopsOn WorkflowPolicy.stopOnError r then
            match cancelListF f .nil envX with
            | none => none
            | some envY =>
                some (.done (finishGroupEff
                    { storages := [5], logDone := some (n + 1), readsKey := some 5 }
                    (accFinal .stopOnError (GroupAcc.init.add r)).toDoneWith),
                  finishGroupEnv
                    { storages := [5], logDone := some (n + 1), readsKey := some 5 }
                    ((5, env.nextInst) :: sctx) [(5, env.nextInst)]
                    (accFinal .stopOnError (GroupAcc.init.add r)).toDoneWith
                    (envY.addProgress (leafCountL .nil)))
          else
            startListF f { storages := [5], logDone := some (n + 1), readsKey := some 5 }
              ((5, env.nextInst) :: sctx) [(5, env.nextInst)] (GroupAcc.init.add r)
              .nil .nil envX) := rfl

theorem nest_run : ∀ (n : Nat) (sctx : Sctx) (env : Env) (f : Nat), 2 * n + 2 ≤ f →
    startItemF f sctx (nest n) env = some (.done DoneResult.success,
      { env with nextInst := env.nextInst + (n + 1),
                 rtrace := nestRLog n env.nextInst env.rtrace }) := by
  intro n
  induction n with
  | zero =>
      intro sctx env f hf
      obtain ⟨f', rfl⟩ : ∃ f', f = f' + 2 := ⟨f - 2, by omega⟩
      rfl
  | succ n ih =>
      intro sctx env f hf
      obtain ⟨f', rfl⟩ : ∃ f', f = f' + 2 := ⟨f - 2, by omega⟩
      rw [startItemF_nest_step]
      rw [ih ((5, env.nextInst) :: sctx)
        (({ env with nextInst := env.nextInst + 1 } : Env).emit
          (.storageCreate 5 env.nextInst)) f' (by omega)]
      dsimp only
      rw [if_neg (by decide : ¬ stopsOn WorkflowPolicy.stopOnError DoneResult.success = true)]
      obtain ⟨f'', rfl⟩ : ∃ f'', f' = f'' + 1 := ⟨f' - 1, by omega⟩
      rw [startListF_nil_nil]
      dsimp only [Env.emit]
      have harith : env.nextInst + 1 + (n + 1) = env.nextInst + (n + 1 + 1) := by omega
      simp only [harith]
      rfl

/-- C5: active-instance lookup resolves a storage key to the instance of the
innermost ancestor group declaring it (the group's own instance when it
declares the key, the enclosing context's otherwise); in a tower of nested
groups all declaring the same key, every group's done handler reads the
instance created at that group's own entry, and each instance is destroyed
right after its group's done handler and before the parent observes the
outcome, so the innermost destruction comes first — both for arbitrary
nesting depth and for the exact shadowing recipe of the test suite. -/
theorem C5_storage_shadowing :
    (∀ (k i : Nat) (sctx : Sctx), lookupActive ((k, i) :: sctx) k = i)
  ∧ (∀ (k kk i : Nat) (sctx : Sctx), kk ≠ k →
      lookupActive ((kk, i) :: sctx) k = lookupActive sctx k)
  ∧ (∀ (n : Nat) (sctx : Sctx) (env : Env) (f : Nat), 2 * n + 2 ≤ f →
      startItemF f sctx (nest n) env = some (.done DoneResult.success,
        { env with nextInst := env.nextInst + (n + 1),
                   rtrace := nestRLog n env.nextInst env.rtrace }))
  ∧ runTrace shadowRecipe 30 = some
      [.storageCreate 9 0, .storageCreate 5 1, .groupSetup 1,
       .storageCreate 5 2, .groupSetup 2,
       .storageCreate 5 3, .groupSetup 3, .groupDone 3 .success, .activeRead 3 5 3,
       .storageDestroy 5 3,
       .storageCreate 5 4, .groupSetup 4, .groupDone 4 .success, .activeRead 4 5 4,
       .storageDestroy 5 4,
       .groupDone 2 .success, .activeRead 2 5 2, .storageDestroy 5 2,
       .groupDone 1 .success, .activeRead 1 5 1, .storageDestroy 5 1,
       .storageDestroy 9 0] := by
  refine ⟨fun k i sctx => ?_, fun k kk i sctx hne => ?_, nest_run, rfl⟩
  · simp [lookupActive, List.find?]
  · have hb : (kk == k) = false := by
      simp [hne]
    simp [lookupActive, List.find?, hb]

/-- Closed instance of `C5_storage_shadowing`: its hypotheses are discharged
at a two-level nest tower and at a concrete shadowed lookup. -/
theorem C5_storage_shadowing_witness :
    startItemF 6 [] (nest 1) Env.init = some (.done DoneResult.success,
      { Env.init with nextInst := Env.init.nextInst + (1 + 1),
                      rtrace := nestRLog 1 Env.init.nextInst Env.init.rtrace })
  ∧ lookupActive ((9, 4) :: [(5, 7)]) 5 = lookupActive [(5, 7)] 5 :=
  ⟨C5_storage_shadowing.2.2.1 1 [] Env.init 6 (by decide),
   C5_storage_shadowing.2.1 5 9 4 [(5, 7)] (by decide)⟩

theorem seq_step (F : Nat) (m : ExecMode) (acc : GroupAcc) (i i2 : Nat) (r2 : DoneResult)
    (tl : List (Nat × DoneResult)) (env : Env) (hm : m.limit = some 1) :
    settleNodeF (F + 6) (seqState m .stopOnError acc i .success ((i2, r2) :: tl)) env =
      some (.running (seqState m .stopOnError (acc.add .success) i2 r2 tl),
        { env with progress := env.progress + 1,
                   rtrace := .taskSetup i2 :: .taskDone i .success :: env.rtrace }) := by
  cases m with
  | sequential => cases tl <;> rfl
  | parallel => simp [ExecMode.limit] at hm
  | parallelLimit k =>
      obtain rfl : k = 1 := by simpa [ExecMode.limit] using hm
      cases tl <;> rfl

theorem seq_last (F : Nat) (m : ExecMode) (acc : GroupAcc) (i : Nat) (env : Env)
    (hm : m.limit = some 1) (hacc : acc.anyError = false) :
    settleNodeF (F + 6) (seqState m .stopOnError acc i .success []) env =
      some (.done DoneResult.success,
        { env with progress := env.progress + 1,
                   rtrace := .groupDone 0 .success :: .taskDone i .success :: env.rtrace }) := by
  have h1 : accFinal .stopOnError (acc.add .success) = .success := by
    simp [accFinal, GroupAcc.add, hacc]
  cases m with
  | sequential =>
      have h2 : settleNodeF (F + 6) (seqState .sequential .stopOnError acc i .success []) env =
          some (.done (finishGroupEff (seqSpec .sequential .stopOnError)
              (accFinal .stopOnError (acc.add .success)).toDoneWith),
            finishGroupEnv (seqSpec .sequential .stopOnError) [] []
              (accFinal .stopOnError (acc.add .success)).toDoneWith
              ((env.emit (.taskDone i .success)).addProgress 1)) := rfl
      rw [h2, h1]
      rfl
  | parallel => simp [ExecMode.limit] at hm
  | parallelLimit k =>
      obtain rfl : k = 1 := by simpa [ExecMode.limit] using hm
      have h2 : settleNodeF (F + 6)
          (seqState (.parallelLimit 1) .stopOnError acc i .success []) env =
          some (.done (finishGroupEff (seqSpec (.parallelLimit 1) .stopOnError)
              (accFinal .stopOnError (acc.add .success)).toDoneWith),
            finishGroupEnv (seqSpec (.parallelLimit 1) .stopOnError) [] []
              (accFinal .stopOnError (acc.add .success)).toDoneWith
              ((env.emit (.taskDone i .success)).addProgress 1)) := rfl
      rw [h2, h1]
      rfl

theorem seq_start (F : Nat) (m : ExecMode) (i : Nat) (r : DoneResult)
    (ts : List (Nat × DoneResult)) (env : Env) (hm : m.limit = some 1) :
    startItemF (F + 3) [] (.group (seqSpec m .stopOnError) (seqTasks ((i, r) :: ts))) env =
      some (.running (seqState m .stopOnError GroupAcc.init i r ts),
        env.emit (.taskSetup i)) := by
  cases m with
  | sequential => cases ts <;> rfl
  | parallel => simp [ExecMode.limit] at hm
  | parallelLimit k =>
      obtain rfl : k = 1 := by simpa [ExecMode.limit] using hm
      cases ts <;> rfl

theorem seq_loop : ∀ (ts : List (Nat × DoneResult)) (m : ExecMode) (i : Nat) (acc : GroupAcc)
    (env : Env) (f : Nat), m.limit = some 1 → acc.anyError = false →
    (∀ pr ∈ ts, pr.2 = DoneResult.success) → ts.length + 7 ≤ f →
    loopF f (seqState m .stopOnError acc i .success ts) env =
      some (DoneResult.success,
        { env with progress := env.progress + (ts.length + 1),
                   rtrace := .groupDone 0 .success ::
                     seqRLog ts (.taskDone i .success :: env.rtrace) }) := by
  intro ts
  induction ts with
  | nil =>
      intro m i acc env f hm hacc hall hf
      obtain ⟨F, rfl⟩ : ∃ F, f = F + 7 := ⟨f - 7, by omega⟩
      rw [loopF_succ, seq_last (F + 1) m acc i env hm hacc]
      rfl
  | cons hd tl ih =>
      obtain ⟨i2, r2⟩ := hd
      intro m i acc env f hm hacc hall hf
      have hr2 : r2 = DoneResult.success := hall (i2, r2) (by simp)
      subst hr2
      obtain ⟨F, rfl⟩ : ∃ F, f = F + 7 := ⟨f - 7, by omega⟩
      rw [loopF_succ, seq_step (F + 1) m acc i i2 .success tl env hm]
      dsimp only
      rw [if_pos (Nat.lt_succ_self env.progress)]
      rw [ih m i2 (acc.add .success)
        { env with progress := env.progress + 1,
                   rtrace := .taskSetup i2 :: .taskDone i .success :: env.rtrace }
        (F + 6) hm (by simp [GroupAcc.add, hacc])
        (fun pr hpr => hall pr (List.mem_cons_of_mem _ hpr))
        (by simp at hf ⊢; omega)]
      have harith : env.progress + 1 + (tl.length + 1) = env.progress + (tl.length + 1 + 1) := by
        omega
      dsimp only
      rw [harith]
      rfl

theorem seqRLog_reverse : ∀ (ts : List (Nat × DoneResult)) (base : List Event),
    (seqRLog ts base).reverse = base.reverse ++ seqLog ts := by
  intro ts
  induction ts with
  | nil => intro base; simp [seqRLog, seqLog]
  | cons hd tl ih =>
      intro base
      obtain ⟨i, r⟩ := hd
      simp [seqRLog, seqLog, ih]

/-- C8: within a Sequential group (equivalently `ParallelLimit(1)`), each
child's setup handler runs only after the previous child's done handler has
returned — a run of n successful zero-duration sequential tasks produces the
strictly alternating trace `Setup(1), Done(1), …, Setup(n), Done(n)` followed
by the group's done handler. -/
theorem C8_sequential_alternation :
    (∀ (m : ExecMode) (i : Nat) (ts : List (Nat × DoneResult)), m.limit = some 1 →
        (∀ pr ∈ ts, pr.2 = DoneResult.success) →
        runTrace (.group (seqSpec m .stopOnError) (seqTasks ((i, .success) :: ts)))
            (ts.length + 8) =
          some (seqLog ((i, .success) :: ts) ++ [.groupDone 0 .success]))
  ∧ ExecMode.sequential.limit = some 1 ∧ (ExecMode.parallelLimit 1).limit = some 1 := by
  refine ⟨fun m i ts hm hall => ?_, rfl, rfl⟩
  rw [runTrace, runRecipe]
  rw [seq_start (ts.length + 5) m i .success ts Env.init hm]
  dsimp only
  rw [seq_loop ts m i GroupAcc.init (Env.init.emit (.taskSetup i)) (ts.length + 8) hm rfl hall
    (by omega)]
  simp [Env.emit, Env.init, seqRLog_reverse, seqLog, DoneResult.toDoneWith]

/-- Closed instance of `C8_sequential_alternation`: its hypotheses are
discharged on a concrete two-task sequential chain. -/
theorem C8_sequential_alternation_witness :
    runTrace (.group (seqSpec .sequential .stopOnError)
        (seqTasks [(1, .success), (2, .success)])) 9 =
      some [.taskSetup 1, .taskDone 1 .success, .taskSetup 2, .taskDone 2 .success,
            .groupDone 0 .success] := by
  have h := C8_sequential_alternation.1 .sequential 1 [(2, .success)] rfl (by decide)
  simpa [seqLog] using h

/-- C6: a barrier with required advance count n transitions every registered
waiter to Succeeded once its current count reaches n, and a `WaitForBarrier`
leaf that registers after the barrier is already satisfied completes
immediately — in particular the sequential recipe whose barrier-advancing
task precedes the waiting group still succeeds, a single advance wakes the
waiters registered in two parallel subgroups, and a required count of 2 holds
the waiter until the second advance. -/
theorem C6_barrier :
    (∀ (fuel : Nat) (sctx : Sctx) (bid : Nat) (env : Env), env.satisfied bid = true →
        startItemF (fuel + 1) sctx (.waitB bid) env =
          some (.done DoneResult.success, env.addProgress 1))
  ∧ (∀ (fuel bid : Nat) (env : Env), env.satisfied bid = true →
        settleNodeF (fuel + 1) (.rwait bid) env =
          some (.done DoneResult.success, env.addProgress 1))
  ∧ runTrace barrierSeqRecipe 30 = some
      [.taskSetup 1, .barrierAdvanced 1, .groupSetup 2, .taskSetup 2,
       .taskDone 2 .success, .taskSetup 3, .taskDone 3 .success]
  ∧ runOutcome barrierSeqRecipe 30 = some DoneResult.success
  ∧ runTrace barrierMultiRecipe 30 = some
      [.taskSetup 1, .groupSetup 2, .groupSetup 3, .barrierAdvanced 1,
       .taskSetup 4, .taskSetup 5, .taskDone 4 .success, .taskDone 5 .success]
  ∧ runOutcome barrierMultiRecipe 30 = some DoneResult.success
  ∧ runTrace barrierTwoRecipe 30 = some
      [.taskSetup 1, .taskSetup 2, .groupSetup 2, .barrierAdvanced 1,
       .barrierAdvanced 2, .taskSetup 3, .taskDone 3 .success]
  ∧ runOutcome barrierTwoRecipe 30 = some DoneResult.success := by
  refine ⟨fun fuel sctx bid env h => ?_, fun fuel bid env h => ?_,
    rfl, rfl, rfl, rfl, rfl, rfl⟩
  · rw [startItemF_waitB, if_pos h]
  · rw [settleNodeF_rwait, if_pos h]

/-- Closed instance of `C6_barrier`: its hypotheses are discharged on a
concrete environment whose barrier 7 (required count 1) has already been
advanced once. -/
theorem C6_barrier_witness :
    startItemF 1 [] (.waitB 7) (Env.mk [(7, 1, 1)] 0 0 []) =
      some (.done DoneResult.success, (Env.mk [(7, 1, 1)] 0 0 []).addProgress 1)
  ∧ settleNodeF 1 (.rwait 7) (Env.mk [(7, 1, 1)] 0 0 []) =
      some (.done DoneResult.success, (Env.mk [(7, 1, 1)] 0 0 []).addProgress 1) :=
  ⟨C6_barrier.1 0 [] 7 _ rfl, C6_barrier.2.1 0 7 _ rfl⟩

theorem wt_start (F : Nat) (id tid d t : Nat) (r : DoneResult) (f : DoneWith → DoneResult)
    (hb : Bool) (env : Env) :
    startItemF (F + 4) [] ((Item.task id .continue' t r (some f)).withTimeout d hb tid) env =
      some (.running (wtState tid d hb id t r f), env.emit (.taskSetup id)) := rfl

theorem wt_settle_idle (F : Nat) (tid d : Nat) (hb : Bool) (id t : Nat) (r : DoneResult)
    (f : DoneWith → DoneResult) (env : Env)
    (hd0 : ¬ ((d == 0) = true)) (ht0 : ¬ ((t == 0) = true)) :
    settleNodeF (F + 5) (wtState tid d hb id t r f) env =
      some (.running (wtState tid d hb id t r f), env) := by
  show settleNodeF (F + 5) (.rgroup wtSpec [] [] GroupAcc.init
      (.cons (.rtimeout tid d hb) (.cons (.rtask id t r (some f)) .nil)) .nil) env = _
  rw [settleNodeF_rgroup, settleListF_cons, settleNodeF_rtimeout, if_neg hd0]
  dsimp only
  rw [settleListF_cons, settleNodeF_rtask, if_neg ht0]
  dsimp only
  rw [settleListF_nil]
  simp only [RNodeList.append]
  rw [startListF_nil_cons]
  rfl

theorem wt_settle_fire (F : Nat) (tid : Nat) (hb : Bool) (id t2 : Nat) (r : DoneResult)
    (f : DoneWith → DoneResult) (env : Env) :
    settleNodeF (F + 5) (.rgroup wtSpec [] [] GroupAcc.init
        (.cons (.rtimeout tid 0 hb) (.cons (.rtask id t2 r (some f)) .nil)) .nil) env =
      some (.done DoneResult.error,
        (((if hb then env.emit (.timeoutFired tid) else env).emit
          (.taskDone id .cancel)).addProgress 2)) := by
  cases hb <;> rfl

theorem wt_settle_task_first (F : Nat) (tid d2 : Nat) (hb : Bool) (id : Nat) (r : DoneResult)
    (f : DoneWith → DoneResult) (env : Env) (hd2 : ¬ ((d2 == 0) = true)) :
    settleNodeF (F + 5) (.rgroup wtSpec [] [] GroupAcc.init
        (.cons (.rtimeout tid d2 hb) (.cons (.rtask id 0 r (some f)) .nil)) .nil) env =
      some (.done (finishGroupEff wtSpec
          ((accFinal .stopOnSuccessOrError (GroupAcc.init.add (f r.toDoneWith))).toDoneWith)),
        ((env.emit (.taskDone id r.toDoneWith)).addProgress 2)) := by
  rw [settleNodeF_rgroup, settleListF_cons, settleNodeF_rtimeout, if_neg hd2]
  dsimp only
  rw [settleListF_cons, settleNodeF_rtask, if_pos (show (0 == 0) = true from rfl)]
  dsimp only
  rw [if_pos (show stopsOn wtSpec.policy (f r.toDoneWith) = true by rfl)]
  simp only [RNodeList.append]
  rw [cancelListF_cons, cancelNodeF_rtimeout]
  dsimp only
  rw [cancelListF_nil]
  dsimp only
  rw [cancelListF_nil]
  rfl

/-- C7: for a task decorated with `withTimeout(d, h?)`, when the timeout fires
while the task is still running (d < t), the supplied handler is invoked
first (exactly when supplied) and the task is then cancelled, its done
handler observing `Canceled` — not `Error`; when the task finishes before the
timeout (t < d), it completes normally with its own observed outcome and the
timeout handler is never invoked. -/
theorem C7_timeout_semantics :
    (∀ (d t : Nat) (r : DoneResult) (f : DoneWith → DoneResult) (id tid : Nat) (hb : Bool),
        0 < d → d < t →
        runRecipe ((Item.task id .continue' t r (some f)).withTimeout d hb tid) 10 =
          some (DoneResult.error,
            { barriers := [], nextInst := 0, progress := 2,
              rtrace := .taskDone id .cancel ::
                ((if hb then [Event.timeoutFired tid] else []) ++ [Event.taskSetup id]) }))
  ∧ (∀ (d t : Nat) (r : DoneResult) (f : DoneWith → DoneResult) (id tid : Nat) (hb : Bool),
        0 < t → t < d →
        runRecipe ((Item.task id .continue' t r (some f)).withTimeout d hb tid) 10 =
          some (f r.toDoneWith,
            { barriers := [], nextInst := 0, progress := 2,
              rtrace := [.taskDone id r.toDoneWith, .taskSetup id] })) := by
  constructor
  · intro d t r f id tid hb h0d hdt
    have hd0 : ¬ ((d == 0) = true) := by simp; omega
    have ht0 : ¬ ((t == 0) = true) := by simp; omega
    rw [runRecipe, wt_start 6 id tid d t r f hb Env.init]
    dsimp only
    rw [loopF_succ, wt_settle_idle 5 tid d hb id t r f _ hd0 ht0]
    dsimp only
    rw [if_neg (lt_irrefl _)]
    rw [show minRemN (wtState tid d hb id t r f) = some (min d t) from rfl]
    dsimp only
    rw [Nat.min_eq_left (Nat.le_of_lt hdt)]
    rw [show shiftN d (wtState tid d hb id t r f) = (.rgroup wtSpec [] [] GroupAcc.init
      (.cons (.rtimeout tid (d - d) hb) (.cons (.rtask id (t - d) r (some f)) .nil)) .nil)
      from rfl]
    rw [Nat.sub_self]
    rw [loopF_succ, wt_settle_fire 4 tid hb id (t - d) r f _]
    cases hb <;> rfl
  · intro d t r f id tid hb h0t htd
    have ht0 : ¬ ((t == 0) = true) := by simp; omega
    have hd0 : ¬ ((d == 0) = true) := by simp; omega
    have htd0 : ¬ (((d - t) == 0) = true) := by simp; omega
    rw [runRecipe, wt_start 6 id tid d t r f hb Env.init]
    dsimp only
    rw [loopF_succ, wt_settle_idle 5 tid d hb id t r f _ hd0 ht0]
    dsimp only
    rw [if_neg (lt_irrefl _)]
    rw [show minRemN (wtState tid d hb id t r f) = some (min d t) from rfl]
    dsimp only
    rw [Nat.min_eq_right (Nat.le_of_lt htd)]
    rw [show shiftN t (wtState tid d hb id t r f) = (.rgroup wtSpec [] [] GroupAcc.init
      (.cons (.rtimeout tid (d - t) hb) (.cons (.rtask id (t - t) r (some f)) .nil)) .nil)
      from rfl]
    rw [Nat.sub_self]
    rw [loopF_succ, wt_settle_task_first 4 tid (d - t) hb id r f _ htd0]
    cases hfr : f r.toDoneWith <;> rfl

/-- Closed instance of `C7_timeout_semantics`: its hypotheses are discharged
at a firing timeout (d = 1 < t = 1000) and a non-firing one (t = 1 < d =
1000), with the test suite's standard done handler. -/
theorem C7_timeout_semantics_witness :
    runRecipe ((Item.task 1 .continue' 1000 .success (some (stdDone .success))).withTimeout
        1 true 9) 10 =
      some (DoneResult.error,
        { barriers := [], nextInst := 0, progress := 2,
          rtrace := .taskDone 1 .cancel ::
            ((if true then [Event.timeoutFired 9] else []) ++ [Event.taskSetup 1]) })
  ∧ runRecipe ((Item.task 1 .continue' 1 .success (some (stdDone .success))).withTimeout
        1000 true 9) 10 =
      some (stdDone .success DoneResult.success.toDoneWith,
        { barriers := [], nextInst := 0, progress := 2,
          rtrace := [.taskDone 1 DoneResult.success.toDoneWith, .taskSetup 1] }) :=
  ⟨C7_timeout_semantics.1 1 1000 .success (stdDone .success) 1 9 true (by decide) (by decide),
   C7_timeout_semantics.2 1000 1 .success (stdDone .success) 1 9 true (by decide) (by decide)⟩

end Tasking
